import Mathlib

/-!
Verification development for the kaplingo translation-room backend.

The Python sources are shallowly embedded:
* `room_manager.py` — `RoomManager` with its user table, room table,
  user-to-room table and per-language waiting pool.  Python `dict`s are
  insertion-ordered association lists (`dictSet` overwrites in place, as
  CPython does); Python `set`s are duplicate-free lists, and the source's
  `next(iter(s))` is determinised as the head of that list.
* `web_socket.py` — `WebSocketManager`; an open channel handle is
  abstracted by whether a send on it currently succeeds (`Bool`).
* `bidirectional_bot.py` — the per-user translation processor state and
  its speech / translated-audio handlers.  Wall-clock times are rationals,
  audio volume is a real number.

Wall-clock components of identifiers (the `time.time()` part of a room id)
are not modelled; only the monotonic counter component is kept.
-/

namespace Kaplingo

/-- Status of a translation room (`room_manager.py`, `RoomStatus`). -/
inductive RoomStatus where
  | waiting
  | active
  | closed
deriving DecidableEq

/-- Language tags (`room_manager.py`, `UserLanguage`). -/
inductive UserLanguage where
  | en
  | hi
  | es
  | fr
  | de
  | zh
  | ja
  | ar
  | auto
deriving DecidableEq

/-- A registered user (`room_manager.py`, `User`); the join timestamp is
not modelled. -/
structure User where
  user_id : String
  connection_id : String
  preferred_language : UserLanguage
  room_id : Option String := none
  is_speaking : Bool := false
deriving DecidableEq

/-- A translation room (`room_manager.py`, `TranslationRoom`); the creation
timestamp is not modelled. -/
structure TranslationRoom where
  room_id : String
  status : RoomStatus := RoomStatus.waiting
  users : List (String × User) := []
  max_users : Nat := 2
deriving DecidableEq

/-- Lookup in an insertion-ordered association list (Python `d.get(k)`). -/
def dictGet {K V : Type} [DecidableEq K] (k : K) : List (K × V) → Option V
  | [] => none
  | (k1, v1) :: rest => if k1 = k then some v1 else dictGet k rest

/-- Insert-or-overwrite (Python `d[k] = v`): an existing key keeps its
position, a new key is appended, as in CPython dicts. -/
def dictSet {K V : Type} [DecidableEq K] (k : K) (v : V) : List (K × V) → List (K × V)
  | [] => [(k, v)]
  | (k1, v1) :: rest => if k1 = k then (k, v) :: rest else (k1, v1) :: dictSet k v rest

/-- Key deletion (Python `del d[k]` / `d.pop(k, None)`); keys are unique in
any list built by `dictSet`, so deleting every occurrence is faithful. -/
def dictDel {K V : Type} [DecidableEq K] (k : K) : List (K × V) → List (K × V)
  | [] => []
  | (k1, v1) :: rest => if k1 = k then dictDel k rest else (k1, v1) :: dictDel k rest

/-- Python `set.add`: no duplicates are introduced. -/
def setAdd (x : String) (l : List String) : List String :=
  if x ∈ l then l else l ++ [x]

/-- Python `set.discard`: drop an element if present. -/
def listRemove (x : String) : List String → List String
  | [] => []
  | y :: rest => if y = x then listRemove x rest else y :: listRemove x rest

/-- The room/user registry (`room_manager.py`, `RoomManager.__init__`). -/
structure RoomManager where
  rooms : List (String × TranslationRoom) := []
  users : List (String × User) := []
  user_to_room : List (String × String) := []
  waiting_queue : List (UserLanguage × List String) := []
  room_counter : Nat := 0

/-- A fresh manager. -/
def initManager : RoomManager := {}

/-- Room-id generation (`RoomManager._generate_room_id`); the wall-clock
part of the Python id is not modelled, the counter part is. -/
def generateRoomId (c : Nat) : String :=
  "room_" ++ toString c

/-- First waiting user found in a bucket of a language different from
`lang` (`RoomManager._find_waiting_partner`, first loop). -/
def findDifferentLang (lang : UserLanguage) : List (UserLanguage × List String) → Option String
  | [] => none
  | (l, b) :: rest => if l ≠ lang ∧ b ≠ [] then b.head? else findDifferentLang lang rest

/-- Partner search (`RoomManager._find_waiting_partner`): any waiting user
with a different language first, then a same-language waiting user. -/
def findWaitingPartner (m : RoomManager) (lang : UserLanguage) : Option String :=
  match findDifferentLang lang m.waiting_queue with
  | some uid => some uid
  | none =>
    match dictGet lang m.waiting_queue with
    | some b => b.head?
    | none => none

/-- `RoomManager._add_to_waiting_queue`. -/
def addToWaitingQueue (m : RoomManager) (u : User) : RoomManager :=
  let b := (dictGet u.preferred_language m.waiting_queue).getD []
  { m with waiting_queue := dictSet u.preferred_language (setAdd u.user_id b) m.waiting_queue }

/-- Discard a user id from one language's bucket, if that bucket exists. -/
def discardFromBucket (m : RoomManager) (lang : UserLanguage) (uid : String) :
    Option (List String) → RoomManager
  | none => m
  | some b => { m with waiting_queue := dictSet lang (listRemove uid b) m.waiting_queue }

/-- Step of `_remove_from_waiting_queue` once the user record is looked
up. -/
def removeFromWaitingQueueFound (m : RoomManager) (uid : String) :
    Option User → RoomManager
  | none => m
  | some u => discardFromBucket m u.preferred_language uid
      (dictGet u.preferred_language m.waiting_queue)

/-- `RoomManager._remove_from_waiting_queue`: looks up the user's current
preferred language and discards the id from that language's bucket only. -/
def removeFromWaitingQueue (m : RoomManager) (uid : String) : RoomManager :=
  removeFromWaitingQueueFound m uid (dictGet uid m.users)

/-- Outcome of `RoomManager.add_user`: a room id, `None`, or an uncaught
`KeyError` (the source indexes `self.users[partner_user_id]` unguarded). -/
inductive AddResult where
  | matched (rid : String)
  | queued
  | keyError
deriving DecidableEq

/-- The `User` record constructed at the top of `RoomManager.add_user`. -/
def newUser (uid cid : String) (lang : UserLanguage) : User :=
  { user_id := uid, connection_id := cid, preferred_language := lang }

/-- The manager after `self.users[user_id] = user` in `add_user`. -/
def withUserInserted (m : RoomManager) (uid cid : String) (lang : UserLanguage) :
    RoomManager :=
  { m with users := dictSet uid (newUser uid cid lang) m.users }

/-- The room built in `add_user`'s matched branch.  The source mutates the
shared `User` objects, so `user.room_id = partner.room_id = room_id` is
reflected in the copies stored in the room.  On a self-match
(`partner_user_id == user_id`, possible when an id is reused) the two map
keys coincide and the room holds a single member. -/
def createdRoom (m1 : RoomManager) (uid cid : String) (lang : UserLanguage)
    (pid : String) (partner0 : User) : TranslationRoom :=
  let rid := generateRoomId (m1.room_counter + 1)
  { room_id := rid, status := RoomStatus.active,
    users := dictSet pid { partner0 with room_id := some rid }
      (dictSet uid { newUser uid cid lang with room_id := some rid } []) }

/-- The user and room-assignment tables after the matched branch's
mutations (both shared `User` objects get the new room id). -/
def roomTablesUpdated (m1 : RoomManager) (uid cid : String) (lang : UserLanguage)
    (pid : String) (partner0 : User) : RoomManager :=
  { m1 with
    users := dictSet pid
        { partner0 with room_id := some (generateRoomId (m1.room_counter + 1)) }
        (dictSet uid
          { newUser uid cid lang with room_id := some (generateRoomId (m1.room_counter + 1)) }
          m1.users),
    user_to_room := dictSet pid (generateRoomId (m1.room_counter + 1))
        (dictSet uid (generateRoomId (m1.room_counter + 1)) m1.user_to_room),
    room_counter := m1.room_counter + 1 }

/-- `add_user`'s matched branch, starting from the manager with the new
user already inserted: update both users' records and room assignments,
remove the partner from the waiting pool (under the partner's *current*
language), and store the new room. -/
def matchIntoRoom (m1 : RoomManager) (uid cid : String) (lang : UserLanguage)
    (pid : String) (partner0 : User) : RoomManager :=
  let m3 := removeFromWaitingQueue (roomTablesUpdated m1 uid cid lang pid partner0) pid
  let room := createdRoom m1 uid cid lang pid partner0
  { m3 with rooms := dictSet (generateRoomId (m1.room_counter + 1)) room m3.rooms }

/-- Dispatch on the partner-search result inside `add_user`: no partner
queues the user; a partner id missing from the user table raises
`KeyError`; otherwise the matched branch runs. -/
def addUserStep (m1 : RoomManager) (uid cid : String) (lang : UserLanguage) :
    Option String → RoomManager × AddResult
  | some pid =>
    match dictGet pid m1.users with
    | none => (m1, AddResult.keyError)
    | some partner0 =>
      (matchIntoRoom m1 uid cid lang pid partner0,
       AddResult.matched (generateRoomId (m1.room_counter + 1)))
  | none =>
    (addToWaitingQueue m1 (newUser uid cid lang), AddResult.queued)

/-- `RoomManager.add_user`. -/
def addUser (m : RoomManager) (uid cid : String) (lang : UserLanguage) :
    RoomManager × AddResult :=
  addUserStep (withUserInserted m uid cid lang) uid cid lang
    (findWaitingPartner (withUserInserted m uid cid lang) lang)

/-- The stored room after one member is popped (`RoomManager.remove_user`,
room-cleanup block): status becomes `closed` exactly when the room
empties. -/
def roomAfterUserRemoval (room : TranslationRoom) (uid : String) : TranslationRoom :=
  if (dictDel uid room.users).isEmpty then
    { room with users := dictDel uid room.users, status := RoomStatus.closed }
  else { room with users := dictDel uid room.users }

/-- Inner step of `remove_user`'s room cleanup, dispatching on the room
looked up under the user's room id. -/
def roomCleanupFound (m1 : RoomManager) (uid rid : String) :
    Option TranslationRoom → RoomManager
  | some room =>
    if (roomAfterUserRemoval room uid).users.isEmpty then
      { m1 with rooms := dictDel rid m1.rooms }
    else { m1 with rooms := dictSet rid (roomAfterUserRemoval room uid) m1.rooms }
  | none => m1

/-- Room-cleanup block of `remove_user`: pop the user from their room; an
emptied room is closed and deleted, otherwise the shrunk room stays. -/
def roomCleanup (m1 : RoomManager) (uid : String) : Option String → RoomManager
  | some rid => roomCleanupFound m1 uid rid (dictGet rid m1.rooms)
  | none => m1

/-- `RoomManager.remove_user`. -/
def removeUser (m : RoomManager) (uid : String) : RoomManager × Option String :=
  match dictGet uid m.users with
  | none => (m, none)
  | some _ =>
    let m2 := roomCleanup (removeFromWaitingQueue m uid) uid (dictGet uid m.user_to_room)
    ({ m2 with users := dictDel uid m2.users, user_to_room := dictDel uid m2.user_to_room },
     dictGet uid m.user_to_room)

/-- `RoomManager.get_room`. -/
def getRoom (m : RoomManager) (rid : String) : Option TranslationRoom :=
  dictGet rid m.rooms

/-- `RoomManager.get_user`. -/
def getUser (m : RoomManager) (uid : String) : Option User :=
  dictGet uid m.users

/-- `RoomManager.get_user_room`. -/
def getUserRoom (m : RoomManager) (uid : String) : Option TranslationRoom :=
  match dictGet uid m.user_to_room with
  | some rid => dictGet rid m.rooms
  | none => none

/-- `TranslationRoom.get_partner`: first member whose key differs. -/
def getPartner (room : TranslationRoom) (uid : String) : Option User :=
  (room.users.find? (fun p => decide (p.1 ≠ uid))).map Prod.snd

/-- `RoomManager.get_translation_partner`. -/
def getTranslationPartner (m : RoomManager) (uid : String) : Option User :=
  match getUserRoom m uid with
  | some room => getPartner room uid
  | none => none

/-- `RoomManager.set_user_speaking_status`. -/
def setUserSpeakingStatus (m : RoomManager) (uid : String) (b : Bool) : RoomManager :=
  match dictGet uid m.users with
  | none => m
  | some u => { m with users := dictSet uid { u with is_speaking := b } m.users }

/-- `RoomManager.get_active_rooms_count`. -/
def getActiveRoomsCount (m : RoomManager) : Nat :=
  (m.rooms.filter (fun p => decide (p.2.status = RoomStatus.active))).length

/-- One call to the mutating interface of the manager. -/
inductive MEvent where
  | add (uid cid : String) (lang : UserLanguage)
  | remove (uid : String)
  | setSpeaking (uid : String) (b : Bool)

/-- State reached after one call (the value returned is discarded). -/
def applyEvent (m : RoomManager) : MEvent → RoomManager
  | MEvent.add uid cid lang => (addUser m uid cid lang).1
  | MEvent.remove uid => (removeUser m uid).1
  | MEvent.setSpeaking uid b => setUserSpeakingStatus m uid b

/-- State of a fresh manager after a sequence of calls. -/
def runEvents (es : List MEvent) : RoomManager :=
  es.foldl applyEvent initManager

/-- One `add_user` call (for `addUser`-only sequences). -/
structure AddCall where
  uid : String
  cid : String
  lang : UserLanguage

/-- Apply one `add_user` call, discarding the returned value. -/
def applyAdd (m : RoomManager) (c : AddCall) : RoomManager :=
  (addUser m c.uid c.cid c.lang).1

/-- State of a fresh manager after a sequence of `add_user` calls. -/
def runAdds (cs : List AddCall) : RoomManager :=
  cs.foldl applyAdd initManager

/-- All user ids currently in some waiting-pool bucket. -/
def waitingIds (m : RoomManager) : List String :=
  (m.waiting_queue.map Prod.snd).flatten

/-! ## Connection registry (`web_socket.py`, `WebSocketManager`)

A live channel handle is abstracted by a `Bool`: whether a send on it
currently succeeds.  Each send-like operation returns the new registry
together with the list of deliveries actually made. -/

/-- The connection registry (`WebSocketManager.__init__`). -/
structure WSManager where
  active_connections : List (String × Bool) := []
deriving DecidableEq

/-- `WebSocketManager.disconnect`: delete the entry if present. -/
def disconnect (w : WSManager) (cid : String) : WSManager :=
  if (dictGet cid w.active_connections).isSome then
    { w with active_connections := dictDel cid w.active_connections }
  else w

/-- `WebSocketManager.send_json`: absent id is a silent no-op; a raising
send is swallowed and the connection deregistered.  The second component
lists the deliveries made (connection id, message). -/
def sendJson (w : WSManager) (cid : String) (msg : String) :
    WSManager × List (String × String) :=
  match dictGet cid w.active_connections with
  | none => (w, [])
  | some ok =>
    if ok then (w, [(cid, msg)])
    else (disconnect w cid, [])

/-- One full pass of `WebSocketManager.broadcast_json`'s loop over the
registry: deliveries made, and the ids whose send raised. -/
def broadcastPass (msg : String) :
    List (String × Bool) → List (String × String) × List String
  | [] => ([], [])
  | (cid, ok) :: rest =>
    if ok then ((cid, msg) :: (broadcastPass msg rest).1, (broadcastPass msg rest).2)
    else ((broadcastPass msg rest).1, cid :: (broadcastPass msg rest).2)

/-- `WebSocketManager.broadcast_json`: attempt every registered connection,
collect the failures, then deregister each failed connection. -/
def broadcastJson (w : WSManager) (msg : String) :
    WSManager × List (String × String) :=
  ((broadcastPass msg w.active_connections).2.foldl disconnect w,
   (broadcastPass msg w.active_connections).1)

/-! ## Base64 (RFC 4648 standard alphabet, as Python's `base64.b64encode`
used by `WebSocketManager.send_audio_json`; the decoder models the
standard decoding of the spec's round-trip property). -/

/-- Character of a six-bit value in the standard base64 alphabet. -/
def sextetChar (n : Nat) : Char :=
  if n < 26 then Char.ofNat (65 + n)
  else if n < 52 then Char.ofNat (97 + (n - 26))
  else if n < 62 then Char.ofNat (48 + (n - 52))
  else if n = 62 then '+'
  else '/'

/-- Inverse of `sextetChar` on the standard alphabet. -/
def charToSextet (c : Char) : Option Nat :=
  if 'A' ≤ c ∧ c ≤ 'Z' then some (c.toNat - 65)
  else if 'a' ≤ c ∧ c ≤ 'z' then some (c.toNat - 97 + 26)
  else if '0' ≤ c ∧ c ≤ '9' then some (c.toNat - 48 + 52)
  else if c = '+' then some 62
  else if c = '/' then some 63
  else none

/-- Standard base64 encoding of a byte string (with `=` padding). -/
def b64encode : List Nat → List Char
  | [] => []
  | [a] => [sextetChar (a / 4), sextetChar (a % 4 * 16), '=', '=']
  | [a, b] => [sextetChar (a / 4), sextetChar (a % 4 * 16 + b / 16),
               sextetChar (b % 16 * 4), '=']
  | a :: b :: c :: rest =>
    sextetChar (a / 4) :: sextetChar (a % 4 * 16 + b / 16) ::
    sextetChar (b % 16 * 4 + c / 64) :: sextetChar (c % 64) :: b64encode rest

/-- Standard base64 decoding (groups of four characters, `=` padding). -/
def b64decode : List Char → Option (List Nat)
  | [] => some []
  | c1 :: c2 :: c3 :: c4 :: rest =>
    (charToSextet c1).bind fun s1 =>
    (charToSextet c2).bind fun s2 =>
    if c3 = '=' then
      if c4 = '=' ∧ rest = [] then some [s1 * 4 + s2 / 16] else none
    else
      (charToSextet c3).bind fun s3 =>
      if c4 = '=' then
        if rest = [] then some [s1 * 4 + s2 / 16, s2 % 16 * 16 + s3 / 4] else none
      else
        (charToSextet c4).bind fun s4 =>
        (b64decode rest).map fun tl =>
          (s1 * 4 + s2 / 16) :: (s2 % 16 * 16 + s3 / 4) :: (s3 % 4 * 64 + s4) :: tl
  | _ => none

/-- The JSON envelope built by `WebSocketManager.send_audio_json`. -/
structure AudioMessage where
  type : String
  data : List Char
  sample_rate : Nat
  format : String
  timestamp : Nat
deriving DecidableEq

/-- `WebSocketManager.send_audio_json`: absent id is a no-op; otherwise the
typed base64 envelope is sent along the same path as `send_json` (a raising
send is swallowed and deregisters).  `ts` stands for the wall-clock
timestamp the source reads. -/
def sendAudioJson (w : WSManager) (cid : String) (audio : List Nat)
    (sample_rate : Nat) (format : String) (ts : Nat) :
    WSManager × List (String × AudioMessage) :=
  match dictGet cid w.active_connections with
  | none => (w, [])
  | some ok =>
    let msg : AudioMessage :=
      { type := "audio", data := b64encode audio, sample_rate := sample_rate,
        format := format, timestamp := ts }
    if ok then (w, [(cid, msg)])
    else (disconnect w cid, [])

/-! ## Per-user translation processor (`bidirectional_bot.py`,
`BidirectionalTranslationProcessor`)

Wall-clock instants (`time.time()`) are rationals passed in explicitly;
audio volume is a real number. -/

/-- Processor state (`BidirectionalTranslationProcessor.__init__`). -/
structure ProcState where
  user_id : String
  user_language : UserLanguage
  volume_threshold : ℝ := 1 / 100
  silence_duration : ℚ := 2
  is_speaking : Bool := false
  tts_active : Bool := false
  silence_start : Option ℚ := none
  last_audio_time : ℚ := 0
  consecutive_silent_frames : Nat := 0
  max_silent_frames : Nat := 50
  last_translation_time : ℚ := 0
  translation_cooldown : ℚ := 1

/-- A 16-bit little-endian sample value as a signed integer. -/
def toSigned16 (v : Nat) : Int :=
  if v < 32768 then (v : Int) else (v : Int) - 65536

/-- `np.frombuffer(audio_data, dtype=np.int16)`: pairs of bytes, little
endian; an odd-length buffer raises (`none`). -/
def bytesToInt16 : List Nat → Option (List Int)
  | [] => some []
  | [_] => none
  | lo :: hi :: rest => (bytesToInt16 rest).map (fun tl => toSigned16 (lo + 256 * hi) :: tl)

/-- `BidirectionalTranslationProcessor._calculate_volume`: RMS of the
16-bit samples divided by 32768.  A malformed (odd-length) buffer raises
inside `np.frombuffer`; the source catches the exception and returns 0.0,
the same value as for an empty sample array, so both paths give 0 here. -/
noncomputable def calcVolume (b : List Nat) : ℝ :=
  let samples := (bytesToInt16 b).getD []
  if samples.length = 0 then 0
  else Real.sqrt ((samples.map (fun s => ((s : ℝ)) ^ 2)).sum / samples.length) / 32768

/-- `BidirectionalTranslationProcessor._handle_translation_audio`: early
return while TTS is inactive; otherwise a frame above the volume threshold
resets the consecutive-silent-frame counter and any other frame increments
it.  The source performs no further action in this handler. -/
noncomputable def handleTranslationAudio (st : ProcState) (frame : List Nat) : ProcState :=
  if st.tts_active = false then st
  else if calcVolume frame > st.volume_threshold then
    { st with consecutive_silent_frames := 0 }
  else
    { st with consecutive_silent_frames := st.consecutive_silent_frames + 1 }

/-- A message emitted through the connection registry by the processor. -/
inductive SentMsg where
  | toConn (cid : String) (tag : String) (payload : String)
  | broadcastAll (tag : String) (payload : String)
deriving DecidableEq

/-- `BidirectionalTranslationProcessor._send_to_partner_bot`: nothing is
sent when the user has no partner; otherwise the bot-to-bot message goes
out as a broadcast. -/
def sendToPartnerBot (rm : RoomManager) (uid : String) (tag : String) (payload : String) :
    List SentMsg :=
  match getTranslationPartner rm uid with
  | none => []
  | some _ => [SentMsg.broadcastAll ("bot_" ++ tag) payload]

/-- `BidirectionalTranslationProcessor._handle_user_speech`: a second
speech event inside the cooldown window returns immediately; otherwise the
speaking flag is set, the transcription is echoed to the user's own
connection, forwarded to the partner bot, and the last-forwarded time is
updated. -/
def handleUserSpeech (st : ProcState) (rm : RoomManager) (now : ℚ) (text : String) :
    ProcState × RoomManager × List SentMsg :=
  if now - st.last_translation_time < st.translation_cooldown then (st, rm, [])
  else
    let rm1 := setUserSpeakingStatus rm st.user_id true
    let selfSends :=
      match getUser rm1 st.user_id with
      | some u => [SentMsg.toConn u.connection_id "user_speech" text]
      | none => []
    let partnerSends := sendToPartnerBot rm1 st.user_id "transcription" text
    ({ st with last_translation_time := now }, rm1, selfSends ++ partnerSends)

/-! ## Invariant predicates and trace side conditions -/

/-- No bucket of the waiting pool shares a user id with a bucket of a
different language ("a user id waits under at most one language"). -/
def bucketsDisjoint (wq : List (UserLanguage × List String)) : Prop :=
  ∀ l1 b1 l2 b2 u, (l1, b1) ∈ wq → (l2, b2) ∈ wq → l1 ≠ l2 → u ∈ b1 → u ∉ b2

/-- The keys of an association list are pairwise distinct. -/
def keysNodup {K V : Type} (l : List (K × V)) : Prop :=
  (l.map Prod.fst).Nodup

/-- Trace condition for `addUser`-only sequences: no call reuses a user id
that is in the waiting pool at the moment of the call. -/
def noWaitingReuse (m : RoomManager) : List AddCall → Bool
  | [] => true
  | c :: rest => !(decide (c.uid ∈ waitingIds m)) && noWaitingReuse (applyAdd m c) rest

/-- Trace condition for full event sequences: no `addUser` call reuses a
user id that currently has a user record. -/
def noRegisteredReuse (m : RoomManager) : List MEvent → Bool
  | [] => true
  | (MEvent.add uid cid lang) :: rest =>
    (dictGet uid m.users).isNone && noRegisteredReuse (applyEvent m (MEvent.add uid cid lang)) rest
  | e :: rest => noRegisteredReuse (applyEvent m e) rest

/-- Waiting-pool well-formedness carried by the reuse-free induction:
every waiting id has a user record whose language is its bucket's key,
every waiting id is unassigned, assigned ids are registered, and bucket
keys are distinct. -/
structure QueueInv (m : RoomManager) : Prop where
  langOfBucket : ∀ l b u, (l, b) ∈ m.waiting_queue → u ∈ b →
    ∃ usr, dictGet u m.users = some usr ∧ usr.preferred_language = l
  waitingUnassigned : ∀ u, u ∈ waitingIds m → dictGet u m.user_to_room = none
  assignedRegistered : ∀ k, (dictGet k m.user_to_room).isSome → (dictGet k m.users).isSome
  wqKeys : keysNodup m.waiting_queue

/-! ## Concrete demo trace used by witnesses -/

/-- Two-user trace: A joins with English, then B joins with Hindi and is
matched into `room_1`. -/
def demoTrace : List MEvent :=
  [MEvent.add "A" "c1" UserLanguage.en, MEvent.add "B" "c2" UserLanguage.hi]

/-- The manager reached by `demoTrace`. -/
def demoManager : RoomManager := runEvents demoTrace

/-- A's record after matching. -/
def demoUserA : User :=
  { user_id := "A", connection_id := "c1",
    preferred_language := UserLanguage.en, room_id := some "room_1" }

/-- B's record after matching. -/
def demoUserB : User :=
  { user_id := "B", connection_id := "c2",
    preferred_language := UserLanguage.hi, room_id := some "room_1" }

/-- The stored room of `demoManager`. -/
def demoRoom : TranslationRoom :=
  { room_id := "room_1", status := RoomStatus.active,
    users := [("B", demoUserB), ("A", demoUserA)] }

/-- The room after B left: only A remains. -/
def demoRoomA : TranslationRoom :=
  { room_id := "room_1", status := RoomStatus.active, users := [("A", demoUserA)] }

/-! ## Association-list lemmas -/

theorem dictGet_dictSet_self {K V : Type} [DecidableEq K] (k : K) (v : V)
    (l : List (K × V)) : dictGet k (dictSet k v l) = some v := by
  induction l with
  | nil => simp [dictGet, dictSet]
  | cons p rest ih =>
    by_cases h : p.1 = k
    · simp [dictSet, dictGet, h]
    · simp [dictSet, dictGet, h, ih]

theorem dictGet_dictSet_ne {K V : Type} [DecidableEq K] {k k' : K} (v : V)
    (l : List (K × V)) (h : k' ≠ k) :
    dictGet k' (dictSet k v l) = dictGet k' l := by
  induction l with
  | nil => simp [dictGet, dictSet, Ne.symm h]
  | cons p rest ih =>
    by_cases hp : p.1 = k
    · simp [dictSet, dictGet, hp, Ne.symm h]
    · by_cases hp' : p.1 = k'
      · simp [dictSet, dictGet, hp, hp', h]
      · simp [dictSet, dictGet, hp, hp', ih]

theorem mem_dictSet {K V : Type} [DecidableEq K] {k : K} {v : V}
    {l : List (K × V)} {p : K × V} (h : p ∈ dictSet k v l) :
    p = (k, v) ∨ p ∈ l := by
  induction l with
  | nil => simpa [dictSet] using h
  | cons q rest ih =>
    by_cases hq : q.1 = k
    · rcases (by simpa [dictSet, hq] using h) with h1 | h1
      · exact Or.inl h1
      · exact Or.inr (List.mem_cons_of_mem _ h1)
    · rcases (by simpa [dictSet, hq] using h) with h1 | h1
      · exact Or.inr (by simp [h1])
      · rcases ih h1 with h2 | h2
        · exact Or.inl h2
        · exact Or.inr (List.mem_cons_of_mem _ h2)

theorem dictGet_mem {K V : Type} [DecidableEq K] {k : K} {v : V}
    {l : List (K × V)} (h : dictGet k l = some v) : (k, v) ∈ l := by
  induction l with
  | nil => simp [dictGet] at h
  | cons q rest ih =>
    cases q with
    | mk qk qv =>
      by_cases hq : qk = k
      · subst hq
        have hv : qv = v := by simpa [dictGet] using h
        subst hv
        exact List.mem_cons_self _ _
      · exact List.mem_cons_of_mem _ (ih (by simpa [dictGet, hq] using h))

theorem dictGet_dictDel_self {K V : Type} [DecidableEq K] (k : K)
    (l : List (K × V)) : dictGet k (dictDel k l) = none := by
  induction l with
  | nil => simp [dictGet, dictDel]
  | cons p rest ih =>
    by_cases h : p.1 = k
    · simp [dictDel, h, ih]
    · simp [dictDel, dictGet, h, ih]

theorem dictGet_dictDel_ne {K V : Type} [DecidableEq K] {k k' : K}
    (l : List (K × V)) (h : k' ≠ k) :
    dictGet k' (dictDel k l) = dictGet k' l := by
  induction l with
  | nil => simp [dictDel]
  | cons p rest ih =>
    by_cases hp : p.1 = k
    · simp [dictDel, dictGet, hp, Ne.symm h, ih]
    · simp [dictDel, dictGet, hp, ih]

theorem mem_dictDel {K V : Type} [DecidableEq K] {k : K}
    {l : List (K × V)} {p : K × V} (h : p ∈ dictDel k l) : p ∈ l := by
  induction l with
  | nil => simpa [dictDel] using h
  | cons q rest ih =>
    by_cases hq : q.1 = k
    · exact List.mem_cons_of_mem _ (ih (by simpa [dictDel, hq] using h))
    · rcases (by simpa [dictDel, hq] using h) with h1 | h1
      · simp [h1]
      · exact List.mem_cons_of_mem _ (ih h1)

theorem mem_listRemove {x y : String} {l : List String}
    (h : y ∈ listRemove x l) : y ∈ l ∧ y ≠ x := by
  induction l with
  | nil => simpa [listRemove] using h
  | cons z rest ih =>
    by_cases hz : z = x
    · have := ih (by simpa [listRemove, hz] using h)
      exact ⟨List.mem_cons_of_mem _ this.1, this.2⟩
    · rcases (by simpa [listRemove, hz] using h) with h1 | h1
      · exact ⟨by simp [h1], h1 ▸ hz⟩
      · have := ih h1
        exact ⟨List.mem_cons_of_mem _ this.1, this.2⟩

theorem mem_setAdd {x y : String} {l : List String} :
    y ∈ setAdd x l ↔ y = x ∨ y ∈ l := by
  unfold setAdd
  by_cases h : x ∈ l
  · simp only [if_pos h]
    constructor
    · exact Or.inr
    · rintro (rfl | hy)
      · exact h
      · exact hy
  · simp [if_neg h, List.mem_append, or_comm]

theorem mem_waitingIds {m : RoomManager} {u : String} :
    u ∈ waitingIds m ↔ ∃ l b, (l, b) ∈ m.waiting_queue ∧ u ∈ b := by
  unfold waitingIds
  simp only [List.mem_flatten, List.mem_map]
  constructor
  · rintro ⟨b, ⟨⟨l, b'⟩, hmem, rfl⟩, hu⟩
    exact ⟨l, b', hmem, hu⟩
  · rintro ⟨l, b, hmem, hu⟩
    exact ⟨b, ⟨(l, b), hmem, rfl⟩, hu⟩

/-! ## Partner-search lemmas -/

theorem findDifferentLang_eq_none {lang : UserLanguage}
    {wq : List (UserLanguage × List String)}
    (h : findDifferentLang lang wq = none) :
    ∀ l b, (l, b) ∈ wq → l ≠ lang → b = [] := by
  induction wq with
  | nil => simp
  | cons p rest ih =>
    intro l b hmem hl
    by_cases hcond : p.1 ≠ lang ∧ p.2 ≠ []
    · rw [findDifferentLang, if_pos hcond] at h
      rcases hcond with ⟨-, hne⟩
      cases hb : p.2 with
      | nil => exact absurd hb hne
      | cons x xs => rw [hb] at h; simp at h
    · rw [findDifferentLang, if_neg hcond] at h
      rcases List.mem_cons.mp hmem with h1 | h1
      · have hp1 : p.1 = l := by rw [← h1]
        have hp2 : p.2 = b := by rw [← h1]
        rcases not_and_or.mp hcond with h2 | h2
        · exact absurd (hp1 ▸ hl) h2
        · simpa [hp2] using h2
      · exact ih h l b h1 hl

theorem findDifferentLang_mem {lang : UserLanguage} {uid : String}
    {wq : List (UserLanguage × List String)}
    (h : findDifferentLang lang wq = some uid) :
    ∃ l b, (l, b) ∈ wq ∧ l ≠ lang ∧ uid ∈ b := by
  induction wq with
  | nil => simp [findDifferentLang] at h
  | cons p rest ih =>
    by_cases hcond : p.1 ≠ lang ∧ p.2 ≠ []
    · rw [findDifferentLang, if_pos hcond] at h
      refine ⟨p.1, p.2, by simp, hcond.1, ?_⟩
      exact List.mem_of_mem_head? h
    · rw [findDifferentLang, if_neg hcond] at h
      obtain ⟨l, b, hmem, hl, hu⟩ := ih h
      exact ⟨l, b, List.mem_cons_of_mem _ hmem, hl, hu⟩

theorem findDifferentLang_isSome {lang : UserLanguage}
    {wq : List (UserLanguage × List String)}
    (h : ∃ l b, (l, b) ∈ wq ∧ l ≠ lang ∧ b ≠ []) :
    (findDifferentLang lang wq).isSome := by
  induction wq with
  | nil => simp at h
  | cons p rest ih =>
    by_cases hcond : p.1 ≠ lang ∧ p.2 ≠ []
    · rw [findDifferentLang, if_pos hcond]
      cases hb : p.2 with
      | nil => exact absurd hb hcond.2
      | cons x xs => simp
    · rw [findDifferentLang, if_neg hcond]
      obtain ⟨l, b, hmem, hl, hb⟩ := h
      rcases List.mem_cons.mp hmem with h1 | h1
      · exfalso
        have hp1 : p.1 = l := by rw [← h1]
        have hp2 : p.2 = b := by rw [← h1]
        exact hcond ⟨hp1 ▸ hl, hp2 ▸ hb⟩
      · exact ih ⟨l, b, h1, hl, hb⟩

theorem findWaitingPartner_mem {m : RoomManager} {lang : UserLanguage} {pid : String}
    (h : findWaitingPartner m lang = some pid) : pid ∈ waitingIds m := by
  unfold findWaitingPartner at h
  cases hd : findDifferentLang lang m.waiting_queue with
  | some uid =>
    rw [hd] at h
    obtain ⟨l, b, hmem, -, hu⟩ := findDifferentLang_mem hd
    cases h
    exact mem_waitingIds.mpr ⟨l, b, hmem, hu⟩
  | none =>
    rw [hd] at h
    cases hg : dictGet lang m.waiting_queue with
    | none => rw [hg] at h; simp at h
    | some b =>
      rw [hg] at h
      exact mem_waitingIds.mpr ⟨lang, b, dictGet_mem hg, List.mem_of_mem_head? h⟩

/-! ## Connection-registry lemmas -/

theorem broadcastPass_delivered {msg : String} {conns : List (String × Bool)}
    {cid m' : String} :
    (cid, m') ∈ (broadcastPass msg conns).1 ↔ (cid, true) ∈ conns ∧ m' = msg := by
  induction conns with
  | nil => simp [broadcastPass]
  | cons p rest ih =>
    obtain ⟨pc, pok⟩ := p
    cases pok <;> simp [broadcastPass, ih] <;> tauto

theorem broadcastPass_failed {msg : String} {conns : List (String × Bool)}
    {cid : String} :
    cid ∈ (broadcastPass msg conns).2 ↔ (cid, false) ∈ conns := by
  induction conns with
  | nil => simp [broadcastPass]
  | cons p rest ih =>
    obtain ⟨pc, pok⟩ := p
    cases pok <;> simp [broadcastPass, ih] <;> tauto

theorem disconnect_get_none {w : WSManager} {cid x : String}
    (h : dictGet cid w.active_connections = none) :
    dictGet cid (disconnect w x).active_connections = none := by
  unfold disconnect
  by_cases hx : (dictGet x w.active_connections).isSome
  · by_cases hcx : cid = x
    · simp [if_pos hx, hcx, dictGet_dictDel_self]
    · simp [if_pos hx, dictGet_dictDel_ne _ hcx, h]
  · simpa [if_neg hx] using h

theorem disconnect_get_self {w : WSManager} {x : String} :
    dictGet x (disconnect w x).active_connections = none := by
  unfold disconnect
  by_cases hx : (dictGet x w.active_connections).isSome
  · simp [if_pos hx, dictGet_dictDel_self]
  · simp only [if_neg hx]
    cases hg : dictGet x w.active_connections with
    | none => rfl
    | some b => rw [hg] at hx; simp at hx

theorem foldl_disconnect_preserve_none {cid : String} :
    ∀ (fs : List String) (w : WSManager),
      dictGet cid w.active_connections = none →
      dictGet cid (fs.foldl disconnect w).active_connections = none := by
  intro fs
  induction fs with
  | nil => intro w h; simpa using h
  | cons f rest ih =>
    intro w h
    simp only [List.foldl_cons]
    exact ih _ (disconnect_get_none h)

theorem foldl_disconnect_get_none {cid : String} :
    ∀ (fs : List String) (w : WSManager), cid ∈ fs →
      dictGet cid (fs.foldl disconnect w).active_connections = none := by
  intro fs
  induction fs with
  | nil => intro w h; simp at h
  | cons f rest ih =>
    intro w h
    rcases List.mem_cons.mp h with rfl | h1
    · simp only [List.foldl_cons]
      exact foldl_disconnect_preserve_none rest _ disconnect_get_self
    · exact ih _ h1

/-! ## Base64 lemmas -/

theorem charToSextet_sextetChar : ∀ n < 64, charToSextet (sextetChar n) = some n := by
  decide

theorem sextetChar_ne_pad : ∀ n < 64, sextetChar n ≠ '=' := by
  decide

theorem b64_roundtrip :
    ∀ l : List Nat, (∀ x ∈ l, x < 256) → b64decode (b64encode l) = some l
  | [] => fun _ => by simp [b64encode, b64decode]
  | [a] => fun h => by
    have ha : a < 256 := h a (by simp)
    have h1 : a / 4 < 64 := by omega
    have h2 : a % 4 * 16 < 64 := by omega
    simp only [b64encode, b64decode]
    rw [charToSextet_sextetChar _ h1, charToSextet_sextetChar _ h2]
    simp only [Option.some_bind, if_pos rfl, and_self, if_true,
      Option.some.injEq, List.cons.injEq, and_true]
    omega
  | [a, b] => fun h => by
    have ha : a < 256 := h a (by simp)
    have hb : b < 256 := h b (by simp)
    have h1 : a / 4 < 64 := by omega
    have h2 : a % 4 * 16 + b / 16 < 64 := by omega
    have h3 : b % 16 * 4 < 64 := by omega
    simp only [b64encode, b64decode]
    rw [charToSextet_sextetChar _ h1, charToSextet_sextetChar _ h2]
    simp only [Option.some_bind]
    rw [if_neg (sextetChar_ne_pad _ h3)]
    rw [charToSextet_sextetChar _ h3]
    simp only [Option.some_bind, if_pos rfl, if_true,
      Option.some.injEq, List.cons.injEq, and_true]
    constructor <;> omega
  | a :: b :: c :: rest => fun h => by
    have ih := b64_roundtrip rest (fun x hx => h x (by simp [hx]))
    have ha : a < 256 := h a (by simp)
    have hb : b < 256 := h b (by simp)
    have hc : c < 256 := h c (by simp)
    have h1 : a / 4 < 64 := by omega
    have h2 : a % 4 * 16 + b / 16 < 64 := by omega
    have h3 : b % 16 * 4 + c / 64 < 64 := by omega
    have h4 : c % 64 < 64 := by omega
    simp only [b64encode, b64decode]
    rw [charToSextet_sextetChar _ h1, charToSextet_sextetChar _ h2]
    simp only [Option.some_bind]
    rw [if_neg (sextetChar_ne_pad _ h3)]
    rw [charToSextet_sextetChar _ h3]
    simp only [Option.some_bind]
    rw [if_neg (sextetChar_ne_pad _ h4)]
    rw [charToSextet_sextetChar _ h4]
    simp only [Option.some_bind]
    rw [ih, Option.map_some']
    simp only [Option.some.injEq, List.cons.injEq, and_true]
    refine ⟨by omega, by omega, by omega⟩

/-! ## Claim C9 — `send_audio_json` base64 round trip -/

/-- C9: for every byte string, sending it with `send_audio_json` produces
an envelope of type `"audio"` whose `data` field is the base64 encoding of
the bytes; decoding that field gives back the original bytes, and the
envelope carries the given sample rate and format. -/
theorem sendAudioJson_roundtrip (w : WSManager) (cid : String) (audio : List Nat)
    (sr : Nat) (fmt : String) (ts : Nat)
    (hbytes : ∀ x ∈ audio, x < 256)
    (hconn : dictGet cid w.active_connections = some true) :
    ∃ msg : AudioMessage,
      sendAudioJson w cid audio sr fmt ts = (w, [(cid, msg)]) ∧
      msg.type = "audio" ∧
      msg.data = b64encode audio ∧
      b64decode msg.data = some audio ∧
      msg.sample_rate = sr ∧ msg.format = fmt := by
  refine ⟨{ type := "audio", data := b64encode audio, sample_rate := sr,
            format := fmt, timestamp := ts },
    ?_, rfl, rfl, b64_roundtrip audio hbytes, rfl, rfl⟩
  simp [sendAudioJson, hconn]

/-- Witness for C9 on a concrete connection and byte string. -/
theorem sendAudioJson_roundtrip_witness :
    ∃ msg : AudioMessage,
      sendAudioJson ⟨[("c", true)]⟩ "c" [0, 1, 255] 16000 "pcm" 7 =
        (⟨[("c", true)]⟩, [("c", msg)]) ∧
      msg.type = "audio" ∧
      msg.data = b64encode [0, 1, 255] ∧
      b64decode msg.data = some [0, 1, 255] ∧
      msg.sample_rate = 16000 ∧ msg.format = "pcm" :=
  sendAudioJson_roundtrip ⟨[("c", true)]⟩ "c" [0, 1, 255] 16000 "pcm" 7
    (by decide) (by decide)

/-! ## Room-manager step lemmas -/

theorem discardFromBucket_rooms (m : RoomManager) (lang : UserLanguage)
    (uid : String) (o : Option (List String)) :
    (discardFromBucket m lang uid o).rooms = m.rooms := by
  cases o <;> rfl

theorem discardFromBucket_users (m : RoomManager) (lang : UserLanguage)
    (uid : String) (o : Option (List String)) :
    (discardFromBucket m lang uid o).users = m.users := by
  cases o <;> rfl

theorem discardFromBucket_utr (m : RoomManager) (lang : UserLanguage)
    (uid : String) (o : Option (List String)) :
    (discardFromBucket m lang uid o).user_to_room = m.user_to_room := by
  cases o <;> rfl

theorem discardFromBucket_counter (m : RoomManager) (lang : UserLanguage)
    (uid : String) (o : Option (List String)) :
    (discardFromBucket m lang uid o).room_counter = m.room_counter := by
  cases o <;> rfl

theorem removeFromWaitingQueue_rooms (m : RoomManager) (uid : String) :
    (removeFromWaitingQueue m uid).rooms = m.rooms := by
  unfold removeFromWaitingQueue
  cases dictGet uid m.users with
  | none => rfl
  | some u => exact discardFromBucket_rooms _ _ _ _

theorem removeFromWaitingQueue_users (m : RoomManager) (uid : String) :
    (removeFromWaitingQueue m uid).users = m.users := by
  unfold removeFromWaitingQueue
  cases dictGet uid m.users with
  | none => rfl
  | some u => exact discardFromBucket_users _ _ _ _

theorem removeFromWaitingQueue_utr (m : RoomManager) (uid : String) :
    (removeFromWaitingQueue m uid).user_to_room = m.user_to_room := by
  unfold removeFromWaitingQueue
  cases dictGet uid m.users with
  | none => rfl
  | some u => exact discardFromBucket_utr _ _ _ _

theorem removeFromWaitingQueue_counter (m : RoomManager) (uid : String) :
    (removeFromWaitingQueue m uid).room_counter = m.room_counter := by
  unfold removeFromWaitingQueue
  cases dictGet uid m.users with
  | none => rfl
  | some u => exact discardFromBucket_counter _ _ _ _

theorem addUser_queued {m : RoomManager} {uid cid : String} {lang : UserLanguage}
    (hp : findWaitingPartner (withUserInserted m uid cid lang) lang = none) :
    addUser m uid cid lang =
      (addToWaitingQueue (withUserInserted m uid cid lang) (newUser uid cid lang),
       AddResult.queued) := by
  simp only [addUser]
  rw [hp]
  rfl

theorem addUser_keyError {m : RoomManager} {uid cid : String} {lang : UserLanguage}
    {pid : String}
    (hp : findWaitingPartner (withUserInserted m uid cid lang) lang = some pid)
    (hq : dictGet pid (withUserInserted m uid cid lang).users = none) :
    addUser m uid cid lang = (withUserInserted m uid cid lang, AddResult.keyError) := by
  simp only [addUser]
  rw [hp]
  simp only [addUserStep]
  rw [hq]

theorem addUser_matched {m : RoomManager} {uid cid : String} {lang : UserLanguage}
    {pid : String} {partner0 : User}
    (hp : findWaitingPartner (withUserInserted m uid cid lang) lang = some pid)
    (hq : dictGet pid (withUserInserted m uid cid lang).users = some partner0) :
    addUser m uid cid lang =
      (matchIntoRoom (withUserInserted m uid cid lang) uid cid lang pid partner0,
       AddResult.matched
         (generateRoomId ((withUserInserted m uid cid lang).room_counter + 1))) := by
  simp only [addUser]
  rw [hp]
  simp only [addUserStep]
  rw [hq]

theorem matchIntoRoom_rooms (m1 : RoomManager) (uid cid : String)
    (lang : UserLanguage) (pid : String) (partner0 : User) :
    (matchIntoRoom m1 uid cid lang pid partner0).rooms =
      dictSet (generateRoomId (m1.room_counter + 1))
        (createdRoom m1 uid cid lang pid partner0)
        m1.rooms := by
  unfold matchIntoRoom
  simp only [removeFromWaitingQueue_rooms]
  rfl

theorem createdRoom_status (m1 : RoomManager) (uid cid : String)
    (lang : UserLanguage) (pid : String) (partner0 : User) :
    (createdRoom m1 uid cid lang pid partner0).status = RoomStatus.active := rfl

theorem addToWaitingQueue_rooms (m : RoomManager) (u : User) :
    (addToWaitingQueue m u).rooms = m.rooms := rfl

theorem withUserInserted_rooms (m : RoomManager) (uid cid : String)
    (lang : UserLanguage) : (withUserInserted m uid cid lang).rooms = m.rooms := rfl

theorem removeUser_not_registered {m : RoomManager} {uid : String}
    (h : dictGet uid m.users = none) : removeUser m uid = (m, none) := by
  simp only [removeUser]
  rw [h]

theorem removeUser_registered {m : RoomManager} {uid : String} {u : User}
    (h : dictGet uid m.users = some u) :
    removeUser m uid =
      ({ roomCleanup (removeFromWaitingQueue m uid) uid (dictGet uid m.user_to_room) with
          users := dictDel uid
            (roomCleanup (removeFromWaitingQueue m uid) uid
              (dictGet uid m.user_to_room)).users,
          user_to_room := dictDel uid
            (roomCleanup (removeFromWaitingQueue m uid) uid
              (dictGet uid m.user_to_room)).user_to_room },
       dictGet uid m.user_to_room) := by
  simp only [removeUser]
  rw [h]

theorem roomCleanup_users (m1 : RoomManager) (uid : String) (o : Option String) :
    (roomCleanup m1 uid o).users = m1.users := by
  cases o with
  | none => rfl
  | some rid =>
    simp only [roomCleanup]
    cases hr : dictGet rid m1.rooms with
    | none => rfl
    | some room =>
      simp only [roomCleanupFound]
      split <;> rfl

theorem roomCleanup_utr (m1 : RoomManager) (uid : String) (o : Option String) :
    (roomCleanup m1 uid o).user_to_room = m1.user_to_room := by
  cases o with
  | none => rfl
  | some rid =>
    simp only [roomCleanup]
    cases hr : dictGet rid m1.rooms with
    | none => rfl
    | some room =>
      simp only [roomCleanupFound]
      split <;> rfl

theorem roomCleanup_waiting_queue (m1 : RoomManager) (uid : String) (o : Option String) :
    (roomCleanup m1 uid o).waiting_queue = m1.waiting_queue := by
  cases o with
  | none => rfl
  | some rid =>
    simp only [roomCleanup]
    cases hr : dictGet rid m1.rooms with
    | none => rfl
    | some room =>
      simp only [roomCleanupFound]
      split <;> rfl

theorem roomCleanup_rooms_mem {m1 : RoomManager} {uid : String} {o : Option String}
    {p : String × TranslationRoom} (h : p ∈ (roomCleanup m1 uid o).rooms) :
    p ∈ m1.rooms ∨
      ∃ rid room, o = some rid ∧ dictGet rid m1.rooms = some room ∧
        p = (rid, roomAfterUserRemoval room uid) ∧
        (roomAfterUserRemoval room uid).users.isEmpty = false := by
  cases o with
  | none => exact Or.inl h
  | some rid =>
    simp only [roomCleanup] at h
    cases hroom : dictGet rid m1.rooms with
    | none =>
      rw [hroom] at h
      exact Or.inl h
    | some room =>
      rw [hroom] at h
      simp only [roomCleanupFound] at h
      by_cases hempty : (roomAfterUserRemoval room uid).users.isEmpty
      · rw [if_pos hempty] at h
        exact Or.inl (mem_dictDel h)
      · rw [if_neg hempty] at h
        rcases mem_dictSet h with rfl | hold
        · exact Or.inr ⟨rid, room, rfl, hroom, rfl, by simpa using hempty⟩
        · exact Or.inl hold

theorem roomAfterUserRemoval_status_of_nonempty {room : TranslationRoom} {uid : String}
    (h : (roomAfterUserRemoval room uid).users.isEmpty = false) :
    (roomAfterUserRemoval room uid).status = room.status := by
  unfold roomAfterUserRemoval at h ⊢
  by_cases hempty : (dictDel uid room.users).isEmpty
  · rw [if_pos hempty] at h
    simp at h
    simp [h] at hempty
  · rw [if_neg hempty]

theorem applyEvent_allActive {m : RoomManager}
    (h : ∀ p ∈ m.rooms, p.2.status = RoomStatus.active) (e : MEvent) :
    ∀ p ∈ (applyEvent m e).rooms, p.2.status = RoomStatus.active := by
  cases e with
  | add uid cid lang =>
    show ∀ p ∈ (addUser m uid cid lang).1.rooms, _
    cases hp : findWaitingPartner (withUserInserted m uid cid lang) lang with
    | none =>
      rw [addUser_queued hp]
      intro p hmem
      exact h p (by simpa [addToWaitingQueue_rooms, withUserInserted_rooms] using hmem)
    | some pid =>
      cases hq : dictGet pid (withUserInserted m uid cid lang).users with
      | none =>
        rw [addUser_keyError hp hq]
        intro p hmem
        exact h p (by simpa [withUserInserted_rooms] using hmem)
      | some partner0 =>
        rw [addUser_matched hp hq]
        intro p hmem
        simp only [matchIntoRoom_rooms, withUserInserted_rooms] at hmem
        rcases mem_dictSet hmem with rfl | hold
        · exact createdRoom_status _ _ _ _ _ _
        · exact h p hold
  | remove uid =>
    show ∀ p ∈ (removeUser m uid).1.rooms, _
    cases hu : dictGet uid m.users with
    | none =>
      rw [removeUser_not_registered hu]
      exact h
    | some u =>
      rw [removeUser_registered hu]
      intro p hmem
      simp only at hmem
      rcases roomCleanup_rooms_mem hmem with hold | ⟨rid, room, -, hroom, rfl, hnonempty⟩
      · rw [removeFromWaitingQueue_rooms] at hold
        exact h p hold
      · rw [roomAfterUserRemoval_status_of_nonempty hnonempty]
        rw [removeFromWaitingQueue_rooms] at hroom
        exact h (rid, room) (dictGet_mem hroom)
  | setSpeaking uid b =>
    show ∀ p ∈ (setUserSpeakingStatus m uid b).rooms, _
    unfold setUserSpeakingStatus
    cases dictGet uid m.users with
    | none => exact h
    | some u => exact h

theorem foldl_allActive : ∀ (es : List MEvent) (m : RoomManager),
    (∀ p ∈ m.rooms, p.2.status = RoomStatus.active) →
    ∀ p ∈ (es.foldl applyEvent m).rooms, p.2.status = RoomStatus.active := by
  intro es
  induction es with
  | nil => intro m h; simpa using h
  | cons e rest ih =>
    intro m h
    simp only [List.foldl_cons]
    exact ih _ (applyEvent_allActive h e)

theorem filter_length_of_all {α : Type} (pred : α → Bool) :
    ∀ l : List α, (∀ x ∈ l, pred x = true) → (l.filter pred).length = l.length := by
  intro l
  induction l with
  | nil => intro h; rfl
  | cons x rest ih =>
    intro h
    rw [List.filter_cons, if_pos (h x (by simp))]
    simp only [List.length_cons]
    rw [ih (fun y hy => h y (List.mem_cons_of_mem _ hy))]

/-! ## Claim C10 — every stored room is active -/

/-- C10: in every state reachable from a fresh manager by `addUser`,
`removeUser` and `setSpeakingStatus` calls, every room in the room table
has status `active`, and `getActiveRoomsCount` equals the number of stored
rooms. -/
theorem storedRooms_always_active (es : List MEvent) :
    (∀ p ∈ (runEvents es).rooms, p.2.status = RoomStatus.active) ∧
    getActiveRoomsCount (runEvents es) = (runEvents es).rooms.length := by
  have hall : ∀ p ∈ (runEvents es).rooms, p.2.status = RoomStatus.active :=
    foldl_allActive es initManager (by intro p hmem; simp [initManager] at hmem)
  refine ⟨hall, ?_⟩
  unfold getActiveRoomsCount
  exact filter_length_of_all _ _ (fun p hp => by simp [hall p hp])

/-! ## Claim C7 — silent-frame handling in the translated-audio path -/

theorem calcVolume_silent_pair : calcVolume [0, 0] = 0 := by
  have hb : bytesToInt16 [0, 0] = some [0] := by decide
  simp only [calcVolume, hb, Option.getD_some]
  norm_num

/-- C7 (divergence evidence): in `_handle_translation_audio` the handling
of a silent frame never consults `max_silent_frames` — for every counter
value `n` and every budget `maxf` (in particular counter 51 against the
configured budget 50) the handler just increments the counter and treats
the frame identically, so no silent frame is ever dropped once the counter
exceeds the budget, contrary to the claim. -/
theorem handleTranslationAudio_ignores_budget :
    ∀ n maxf : Nat,
      handleTranslationAudio
        { user_id := "u", user_language := UserLanguage.en, tts_active := true,
          consecutive_silent_frames := n, max_silent_frames := maxf } [0, 0]
      = { user_id := "u", user_language := UserLanguage.en, tts_active := true,
          consecutive_silent_frames := n + 1, max_silent_frames := maxf } := by
  intro n maxf
  unfold handleTranslationAudio
  rw [if_neg (by simp)]
  rw [if_neg (by rw [calcVolume_silent_pair]; norm_num)]

/-! ## Claim C8 — speech-event cooldown -/

/-- C8: a recognised-speech event arriving less than the configured
cooldown after the most recently forwarded one is suppressed: nothing is
sent to the user's own connection or to the partner, the speaking flag is
not touched, and the stored last-forwarded time is unchanged. -/
theorem handleUserSpeech_cooldown (st : ProcState) (rm : RoomManager) (now : ℚ)
    (text : String)
    (h : now - st.last_translation_time < st.translation_cooldown) :
    handleUserSpeech st rm now text = (st, rm, []) := by
  simp [handleUserSpeech, if_pos h]

/-- Witness for C8: an event half a second after the last forwarded one
(cooldown 1 s) changes nothing and sends nothing. -/
theorem handleUserSpeech_cooldown_witness :
    handleUserSpeech
      { user_id := "u", user_language := UserLanguage.en, last_translation_time := 10 }
      initManager (21 / 2) "hello"
      = ({ user_id := "u", user_language := UserLanguage.en, last_translation_time := 10 },
         initManager, []) :=
  handleUserSpeech_cooldown
    { user_id := "u", user_language := UserLanguage.en, last_translation_time := 10 }
    initManager (21 / 2) "hello" (by norm_num)

/-! ## Claim C5 — `send_json` error handling -/

/-- C5: for every connection id and message, `send_json` is a silent no-op
when the id is absent from the connection table; when the underlying send
raises, the error is swallowed and exactly that id is removed from the
table; on a successful send the table is unchanged and the message is
delivered to that id only. -/
theorem sendJson_error_handling (w : WSManager) (cid msg : String) :
    (dictGet cid w.active_connections = none → sendJson w cid msg = (w, [])) ∧
    (dictGet cid w.active_connections = some true →
      sendJson w cid msg = (w, [(cid, msg)])) ∧
    (dictGet cid w.active_connections = some false →
      sendJson w cid msg =
        ({ active_connections := dictDel cid w.active_connections }, [])) := by
  refine ⟨fun h => ?_, fun h => ?_, fun h => ?_⟩
  · simp [sendJson, h]
  · simp [sendJson, h]
  · simp [sendJson, h, disconnect]

/-- Witness for C5 on a concrete two-entry table: missing id, healthy id,
failing id. -/
theorem sendJson_error_handling_witness :
    sendJson ⟨[("a", true), ("b", false)]⟩ "c" "m" = (⟨[("a", true), ("b", false)]⟩, []) ∧
    sendJson ⟨[("a", true), ("b", false)]⟩ "a" "m" =
      (⟨[("a", true), ("b", false)]⟩, [("a", "m")]) ∧
    sendJson ⟨[("a", true), ("b", false)]⟩ "b" "m" =
      ({ active_connections := dictDel "b" [("a", true), ("b", false)] }, []) :=
  ⟨(sendJson_error_handling ⟨[("a", true), ("b", false)]⟩ "c" "m").1 (by decide),
   (sendJson_error_handling ⟨[("a", true), ("b", false)]⟩ "a" "m").2.1 (by decide),
   (sendJson_error_handling ⟨[("a", true), ("b", false)]⟩ "b" "m").2.2 (by decide)⟩

/-! ## Claim C6 — `broadcast_json` partial failure -/

/-- C6: `broadcast_json` attempts delivery to every registered connection
(each healthy connection receives the message, and every delivery goes to
a healthy connection), and by the end of the call every connection whose
send failed has been removed from the table. -/
theorem broadcastJson_partial_failure (w : WSManager) (msg : String) :
    (∀ cid, (cid, true) ∈ w.active_connections →
      (cid, msg) ∈ (broadcastJson w msg).2) ∧
    (∀ cid m', (cid, m') ∈ (broadcastJson w msg).2 →
      (cid, true) ∈ w.active_connections ∧ m' = msg) ∧
    (∀ cid, (cid, false) ∈ w.active_connections →
      dictGet cid (broadcastJson w msg).1.active_connections = none) := by
  refine ⟨fun cid h => ?_, fun cid m' h => ?_, fun cid h => ?_⟩
  · exact broadcastPass_delivered.mpr ⟨h, rfl⟩
  · exact broadcastPass_delivered.mp h
  · exact foldl_disconnect_get_none _ _ (broadcastPass_failed.mpr h)

/-- Witness for C6, the spec's three-connection scenario: one failing
connection, the other two still receive the message and the failing one is
gone afterwards. -/
theorem broadcastJson_partial_failure_witness :
    ("c1", "m") ∈ (broadcastJson ⟨[("c1", true), ("c2", false), ("c3", true)]⟩ "m").2 ∧
    ("c3", "m") ∈ (broadcastJson ⟨[("c1", true), ("c2", false), ("c3", true)]⟩ "m").2 ∧
    dictGet "c2"
      (broadcastJson ⟨[("c1", true), ("c2", false), ("c3", true)]⟩ "m").1.active_connections
      = none :=
  ⟨(broadcastJson_partial_failure ⟨[("c1", true), ("c2", false), ("c3", true)]⟩ "m").1
      "c1" (by decide),
   (broadcastJson_partial_failure ⟨[("c1", true), ("c2", false), ("c3", true)]⟩ "m").1
      "c3" (by decide),
   (broadcastJson_partial_failure ⟨[("c1", true), ("c2", false), ("c3", true)]⟩ "m").2.2
      "c2" (by decide)⟩

/-! ## Claim C1 — room size and active status under `addUser` sequences -/

theorem withUserInserted_waiting_queue (m : RoomManager) (uid cid : String)
    (lang : UserLanguage) :
    (withUserInserted m uid cid lang).waiting_queue = m.waiting_queue := rfl

theorem waitingIds_withUserInserted (m : RoomManager) (uid cid : String)
    (lang : UserLanguage) :
    waitingIds (withUserInserted m uid cid lang) = waitingIds m := rfl

theorem dictSet_dictSet_nil_le {V : Type} (pid uid : String) (x y : V) :
    (dictSet pid x (dictSet uid y ([] : List (String × V)))).length ≤ 2 := by
  by_cases h : uid = pid
  · simp [dictSet, h]
  · simp [dictSet, h]

theorem dictSet_dictSet_nil_of_ne {V : Type} {pid uid : String} (h : pid ≠ uid)
    (x y : V) :
    dictSet pid x (dictSet uid y ([] : List (String × V))) = [(uid, y), (pid, x)] := by
  simp [dictSet, Ne.symm h]

theorem createdRoom_users_le (m1 : RoomManager) (uid cid : String)
    (lang : UserLanguage) (pid : String) (partner0 : User) :
    (createdRoom m1 uid cid lang pid partner0).users.length ≤ 2 := by
  simp only [createdRoom]
  exact dictSet_dictSet_nil_le _ _ _ _

theorem createdRoom_users_two (m1 : RoomManager) (uid cid : String)
    (lang : UserLanguage) {pid : String} (partner0 : User) (h : pid ≠ uid) :
    (createdRoom m1 uid cid lang pid partner0).users.length = 2 := by
  simp only [createdRoom]
  rw [dictSet_dictSet_nil_of_ne h]
  rfl

theorem applyAdd_rooms_le2 {m : RoomManager}
    (h : ∀ p ∈ m.rooms, p.2.users.length ≤ 2) (c : AddCall) :
    ∀ p ∈ (applyAdd m c).rooms, p.2.users.length ≤ 2 := by
  show ∀ p ∈ (addUser m c.uid c.cid c.lang).1.rooms, _
  cases hp : findWaitingPartner (withUserInserted m c.uid c.cid c.lang) c.lang with
  | none =>
    rw [addUser_queued hp]
    intro p hmem
    exact h p (by simpa [addToWaitingQueue_rooms, withUserInserted_rooms] using hmem)
  | some pid =>
    cases hq : dictGet pid (withUserInserted m c.uid c.cid c.lang).users with
    | none =>
      rw [addUser_keyError hp hq]
      intro p hmem
      exact h p (by simpa [withUserInserted_rooms] using hmem)
    | some partner0 =>
      rw [addUser_matched hp hq]
      intro p hmem
      simp only [matchIntoRoom_rooms, withUserInserted_rooms] at hmem
      rcases mem_dictSet hmem with rfl | hold
      · exact createdRoom_users_le _ _ _ _ _ _
      · exact h p hold

theorem applyAdd_rooms_active2 {m : RoomManager} {c : AddCall}
    (hc : c.uid ∉ waitingIds m)
    (h : ∀ p ∈ m.rooms, p.2.status = RoomStatus.active ∧ p.2.users.length = 2) :
    ∀ p ∈ (applyAdd m c).rooms,
      p.2.status = RoomStatus.active ∧ p.2.users.length = 2 := by
  show ∀ p ∈ (addUser m c.uid c.cid c.lang).1.rooms, _
  cases hp : findWaitingPartner (withUserInserted m c.uid c.cid c.lang) c.lang with
  | none =>
    rw [addUser_queued hp]
    intro p hmem
    exact h p (by simpa [addToWaitingQueue_rooms, withUserInserted_rooms] using hmem)
  | some pid =>
    cases hq : dictGet pid (withUserInserted m c.uid c.cid c.lang).users with
    | none =>
      rw [addUser_keyError hp hq]
      intro p hmem
      exact h p (by simpa [withUserInserted_rooms] using hmem)
    | some partner0 =>
      have hpid : pid ∈ waitingIds m := by
        have := findWaitingPartner_mem hp
        rwa [waitingIds_withUserInserted] at this
      have hne : pid ≠ c.uid := fun e => hc (e ▸ hpid)
      rw [addUser_matched hp hq]
      intro p hmem
      simp only [matchIntoRoom_rooms, withUserInserted_rooms] at hmem
      rcases mem_dictSet hmem with rfl | hold
      · exact ⟨createdRoom_status _ _ _ _ _ _, createdRoom_users_two _ _ _ _ _ hne⟩
      · exact h p hold

theorem foldl_rooms_le2 : ∀ (cs : List AddCall) (m : RoomManager),
    (∀ p ∈ m.rooms, p.2.users.length ≤ 2) →
    ∀ p ∈ (cs.foldl applyAdd m).rooms, p.2.users.length ≤ 2 := by
  intro cs
  induction cs with
  | nil => intro m h; simpa using h
  | cons c rest ih =>
    intro m h
    simp only [List.foldl_cons]
    exact ih _ (applyAdd_rooms_le2 h c)

theorem foldl_rooms_active2 : ∀ (cs : List AddCall) (m : RoomManager),
    noWaitingReuse m cs = true →
    (∀ p ∈ m.rooms, p.2.status = RoomStatus.active ∧ p.2.users.length = 2) →
    ∀ p ∈ (cs.foldl applyAdd m).rooms,
      p.2.status = RoomStatus.active ∧ p.2.users.length = 2 := by
  intro cs
  induction cs with
  | nil => intro m _ h; simpa using h
  | cons c rest ih =>
    intro m hok h
    obtain ⟨h1, h2⟩ := Bool.and_eq_true_iff.mp hok
    have hni : c.uid ∉ waitingIds m := by simpa using h1
    simp only [List.foldl_cons]
    exact ih _ h2 (applyAdd_rooms_active2 hni h)

/-- C1 (amended): for every sequence of `addUser` calls from a fresh
manager, every stored room has at most 2 members; and provided no call
reuses a user id that is in the waiting pool at the moment of the call,
every stored room is `active` iff it has exactly 2 members.  (The
unrestricted claim fails: see the counterexample, where a reused waiting
id makes the user their own partner and yields a 1-member active room.) -/
theorem addUser_room_size_invariant :
    (∀ cs : List AddCall, ∀ p ∈ (runAdds cs).rooms, p.2.users.length ≤ 2) ∧
    (∀ cs : List AddCall, noWaitingReuse initManager cs = true →
      ∀ p ∈ (runAdds cs).rooms,
        (p.2.status = RoomStatus.active ↔ p.2.users.length = 2)) := by
  constructor
  · intro cs
    exact foldl_rooms_le2 cs initManager (by intro p hp; simp [initManager] at hp)
  · intro cs hok p hp
    have hinv := foldl_rooms_active2 cs initManager hok
      (by intro p hp; simp [initManager] at hp) p hp
    exact ⟨fun _ => hinv.2, fun _ => hinv.1⟩

/-- C1 counterexample: reusing the id "A" while "A" is waiting makes the
second call match "A" with itself, storing a one-member room with status
`active` — so "active iff exactly 2 members" is false as stated. -/
theorem addUser_selfmatch_counterexample :
    ¬ (∀ p ∈ (runAdds [⟨"A", "c1", UserLanguage.en⟩,
                       ⟨"A", "c2", UserLanguage.hi⟩]).rooms,
        (p.2.status = RoomStatus.active ↔ p.2.users.length = 2)) := by
  decide

/-- Witness for C1 (amended) on the two-user trace A(en), B(hi). -/
theorem addUser_room_size_invariant_witness :
    noWaitingReuse initManager
      [⟨"A", "c1", UserLanguage.en⟩, ⟨"B", "c2", UserLanguage.hi⟩] = true ∧
    ∃ r, getRoom (runAdds [⟨"A", "c1", UserLanguage.en⟩,
                           ⟨"B", "c2", UserLanguage.hi⟩]) "room_1" = some r ∧
      r.users.length ≤ 2 ∧ (r.status = RoomStatus.active ↔ r.users.length = 2) := by
  refine ⟨by decide, ?_⟩
  cases hr : getRoom (runAdds [⟨"A", "c1", UserLanguage.en⟩,
      ⟨"B", "c2", UserLanguage.hi⟩]) "room_1" with
  | none => exact absurd hr (by decide)
  | some r =>
    refine ⟨r, rfl, ?_, ?_⟩
    · exact addUser_room_size_invariant.1 _ ("room_1", r) (dictGet_mem hr)
    · exact addUser_room_size_invariant.2 _ (by decide) ("room_1", r) (dictGet_mem hr)

/-! ## Claim C3 — matching policy -/

theorem findDifferentLang_cons_hit {lang l : UserLanguage} {x : String}
    {xs : List String} {rest : List (UserLanguage × List String)} (h : l ≠ lang) :
    findDifferentLang lang ((l, x :: xs) :: rest) = some x := by
  unfold findDifferentLang
  rw [if_pos]
  · rfl
  · exact ⟨h, by simp⟩

theorem findDifferentLang_cons_same {lang : UserLanguage} {bkt : List String}
    {rest : List (UserLanguage × List String)} :
    findDifferentLang lang ((lang, bkt) :: rest) = findDifferentLang lang rest := by
  show (if lang ≠ lang ∧ bkt ≠ [] then bkt.head? else findDifferentLang lang rest)
      = findDifferentLang lang rest
  rw [if_neg]
  intro hcon
  exact hcon.1 rfl

theorem findWaitingPartner_of_diff {m : RoomManager} {lang : UserLanguage}
    {pid : String} (h : findDifferentLang lang m.waiting_queue = some pid) :
    findWaitingPartner m lang = some pid := by
  unfold findWaitingPartner
  rw [h]

theorem findWaitingPartner_same_head {m : RoomManager} {lang : UserLanguage}
    {x : String} {xs : List String}
    (hd : findDifferentLang lang m.waiting_queue = none)
    (hg : dictGet lang m.waiting_queue = some (x :: xs)) :
    findWaitingPartner m lang = some x := by
  unfold findWaitingPartner
  rw [hd, hg]
  rfl

theorem second_join_matches {s1 : RoomManager} {a b c1 c2 : String}
    {l1 l2 : UserLanguage} (hab : a ≠ b)
    (husers : s1.users = [(a, newUser a c1 l1)])
    (hp2 : findWaitingPartner (withUserInserted s1 b c2 l2) l2 = some a) :
    ∃ rid r, (addUser s1 b c2 l2).2 = AddResult.matched rid ∧
      getRoom (addUser s1 b c2 l2).1 rid = some r ∧
      r.users.map Prod.fst = [b, a] := by
  have hq2 : dictGet a (withUserInserted s1 b c2 l2).users = some (newUser a c1 l1) := by
    show dictGet a (dictSet b (newUser b c2 l2) s1.users) = _
    rw [dictGet_dictSet_ne _ _ hab, husers]
    simp [dictGet]
  rw [addUser_matched hp2 hq2]
  refine ⟨generateRoomId ((withUserInserted s1 b c2 l2).room_counter + 1),
    createdRoom (withUserInserted s1 b c2 l2) b c2 l2 a (newUser a c1 l1),
    rfl, ?_, ?_⟩
  · show dictGet (generateRoomId ((withUserInserted s1 b c2 l2).room_counter + 1))
        (matchIntoRoom (withUserInserted s1 b c2 l2) b c2 l2 a (newUser a c1 l1)).rooms
      = some (createdRoom (withUserInserted s1 b c2 l2) b c2 l2 a (newUser a c1 l1))
    rw [matchIntoRoom_rooms]
    exact dictGet_dictSet_self _ _ _
  · show (createdRoom (withUserInserted s1 b c2 l2) b c2 l2 a
        (newUser a c1 l1)).users.map Prod.fst = [b, a]
    simp only [createdRoom]
    rw [dictSet_dictSet_nil_of_ne hab]
    rfl

/-- C3: from a fresh manager, if distinct users A and B join with
different languages, A waits and B's call creates a room containing
exactly B and A; with equal languages (and no differing-language waiter)
B is still matched with A; and in general the partner search prefers any
differing-language waiting user: whenever some non-empty bucket of a
different language exists, the chosen partner comes from such a bucket. -/
theorem matching_policy :
    (∀ (a b c1 c2 : String) (l1 l2 : UserLanguage), a ≠ b → l1 ≠ l2 →
      (addUser initManager a c1 l1).2 = AddResult.queued ∧
      ∃ rid r,
        (addUser (addUser initManager a c1 l1).1 b c2 l2).2 = AddResult.matched rid ∧
        getRoom (addUser (addUser initManager a c1 l1).1 b c2 l2).1 rid = some r ∧
        r.users.map Prod.fst = [b, a]) ∧
    (∀ (a b c1 c2 : String) (l : UserLanguage), a ≠ b →
      (addUser initManager a c1 l).2 = AddResult.queued ∧
      ∃ rid r,
        (addUser (addUser initManager a c1 l).1 b c2 l).2 = AddResult.matched rid ∧
        getRoom (addUser (addUser initManager a c1 l).1 b c2 l).1 rid = some r ∧
        r.users.map Prod.fst = [b, a]) ∧
    (∀ (m : RoomManager) (lang : UserLanguage),
      (∃ l bkt, (l, bkt) ∈ m.waiting_queue ∧ l ≠ lang ∧ bkt ≠ []) →
      ∃ pid l bkt, findWaitingPartner m lang = some pid ∧
        (l, bkt) ∈ m.waiting_queue ∧ l ≠ lang ∧ pid ∈ bkt) := by
  refine ⟨?_, ?_, ?_⟩
  · intro a b c1 c2 l1 l2 hab h12
    have hp1 : findWaitingPartner (withUserInserted initManager a c1 l1) l1 = none := rfl
    have hs1 : addUser initManager a c1 l1 =
        (addToWaitingQueue (withUserInserted initManager a c1 l1) (newUser a c1 l1),
         AddResult.queued) := addUser_queued hp1
    rw [hs1]
    refine ⟨rfl, ?_⟩
    apply second_join_matches hab rfl
    apply findWaitingPartner_of_diff
    show findDifferentLang l2 [(l1, [a])] = some a
    exact findDifferentLang_cons_hit h12
  · intro a b c1 c2 l hab
    have hp1 : findWaitingPartner (withUserInserted initManager a c1 l) l = none := rfl
    have hs1 : addUser initManager a c1 l =
        (addToWaitingQueue (withUserInserted initManager a c1 l) (newUser a c1 l),
         AddResult.queued) := addUser_queued hp1
    rw [hs1]
    refine ⟨rfl, ?_⟩
    apply second_join_matches hab rfl
    have hd : findDifferentLang l [(l, [a])] = none := by
      rw [findDifferentLang_cons_same]
      rfl
    have hg : dictGet l [(l, [a])] = some [a] := by
      simp [dictGet]
    exact findWaitingPartner_same_head hd hg
  · intro m lang hex
    have hsome := findDifferentLang_isSome hex
    cases heq : findDifferentLang lang m.waiting_queue with
    | none => rw [heq] at hsome; simp at hsome
    | some pid =>
      obtain ⟨l, bkt, hmem, hl, hpid⟩ := findDifferentLang_mem heq
      exact ⟨pid, l, bkt, findWaitingPartner_of_diff heq, hmem, hl, hpid⟩

/-- Witness for C3 at concrete users and languages: "a"(en) then "b"(hi),
"a"(en) then "b"(en), and a concrete pool where a differing-language
waiter exists. -/
theorem matching_policy_witness :
    ((addUser initManager "a" "c1" UserLanguage.en).2 = AddResult.queued ∧
     ∃ rid r,
       (addUser (addUser initManager "a" "c1" UserLanguage.en).1 "b" "c2"
         UserLanguage.hi).2 = AddResult.matched rid ∧
       getRoom (addUser (addUser initManager "a" "c1" UserLanguage.en).1 "b" "c2"
         UserLanguage.hi).1 rid = some r ∧
       r.users.map Prod.fst = ["b", "a"]) ∧
    ((addUser initManager "a" "c1" UserLanguage.en).2 = AddResult.queued ∧
     ∃ rid r,
       (addUser (addUser initManager "a" "c1" UserLanguage.en).1 "b" "c2"
         UserLanguage.en).2 = AddResult.matched rid ∧
       getRoom (addUser (addUser initManager "a" "c1" UserLanguage.en).1 "b" "c2"
         UserLanguage.en).1 rid = some r ∧
       r.users.map Prod.fst = ["b", "a"]) ∧
    (∃ pid l bkt,
      findWaitingPartner { waiting_queue := [(UserLanguage.en, ["x"])] }
        UserLanguage.hi = some pid ∧
      (l, bkt) ∈ [(UserLanguage.en, ["x"])] ∧ l ≠ UserLanguage.hi ∧ pid ∈ bkt) :=
  ⟨matching_policy.1 "a" "b" "c1" "c2" UserLanguage.en UserLanguage.hi
      (by decide) (by decide),
   matching_policy.2.1 "a" "b" "c1" "c2" UserLanguage.en (by decide),
   matching_policy.2.2 { waiting_queue := [(UserLanguage.en, ["x"])] } UserLanguage.hi
      ⟨UserLanguage.en, ["x"], by simp, by decide, by simp⟩⟩

/-! ## Claim C4 — `removeUser` behaviour -/

theorem dictGet_eq_none_not_mem {K V : Type} [DecidableEq K] {k : K} {v : V}
    {l : List (K × V)} (h : dictGet k l = none) : (k, v) ∉ l := by
  induction l with
  | nil => simp
  | cons q rest ih =>
    intro hmem
    by_cases hq : q.1 = k
    · simp [dictGet, hq] at h
    · rcases List.mem_cons.mp hmem with rfl | h1
      · exact hq rfl
      · exact ih (by simpa [dictGet, hq] using h) h1

theorem mem_dictSet_eq_of_key {K V : Type} [DecidableEq K] {k : K} {v : V}
    {l : List (K × V)} {p : K × V} (hmem : p ∈ dictSet k v l) (hkey : p.1 = k)
    (hnd : keysNodup l) : p = (k, v) := by
  induction l with
  | nil => simpa [dictSet] using hmem
  | cons q rest ih =>
    by_cases hq : q.1 = k
    · rcases (by simpa [dictSet, hq] using hmem) with h1 | h1
      · exact h1
      · exfalso
        have hknotin : k ∉ rest.map Prod.fst := by
          have := hnd
          simp only [keysNodup, List.map_cons, List.nodup_cons] at this
          exact hq ▸ this.1
        exact hknotin (by exact List.mem_map.mpr ⟨p, h1, hkey⟩)
    · rcases (by simpa [dictSet, hq] using hmem) with h1 | h1
      · exfalso
        apply hq
        rw [← hkey, h1]
      · exact ih h1 (by
          have := hnd
          simp only [keysNodup, List.map_cons, List.nodup_cons] at this
          exact this.2)

theorem dictDel_length_one {V : Type} {uid : String} {l : List (String × V)}
    (h2 : l.length = 2) (hnd : keysNodup l) (hmem : uid ∈ l.map Prod.fst) :
    (dictDel uid l).length = 1 := by
  obtain ⟨p, q, rfl⟩ := List.length_eq_two.mp h2
  have hpq : p.1 ≠ q.1 := by
    simpa [keysNodup] using hnd
  rcases (by simpa using hmem : uid = p.1 ∨ uid = q.1) with rfl | rfl
  · have hqne : q.1 ≠ p.1 := Ne.symm hpq
    simp [dictDel, hqne]
  · have hpne : p.1 ≠ q.1 := hpq
    simp [dictDel, hpne]

theorem roomAfterUserRemoval_users (room : TranslationRoom) (uid : String) :
    (roomAfterUserRemoval room uid).users = dictDel uid room.users := by
  unfold roomAfterUserRemoval
  split <;> rfl

theorem isEmpty_false_of_length_one {V : Type} {l : List V} (h : l.length = 1) :
    l.isEmpty = false := by
  cases l with
  | nil => simp at h
  | cons x xs => rfl

theorem removeUser_registered_rooms {m : RoomManager} {uid : String} {u : User}
    (hu : dictGet uid m.users = some u) :
    (removeUser m uid).1.rooms =
      (roomCleanup (removeFromWaitingQueue m uid) uid
        (dictGet uid m.user_to_room)).rooms := by
  rw [removeUser_registered hu]

theorem removeUser_registered_snd {m : RoomManager} {uid : String} {u : User}
    (hu : dictGet uid m.users = some u) :
    (removeUser m uid).2 = dictGet uid m.user_to_room := by
  rw [removeUser_registered hu]

theorem removeUser_registered_users {m : RoomManager} {uid : String} {u : User}
    (hu : dictGet uid m.users = some u) :
    (removeUser m uid).1.users =
      dictDel uid (roomCleanup (removeFromWaitingQueue m uid) uid
        (dictGet uid m.user_to_room)).users := by
  rw [removeUser_registered hu]

theorem removeUser_registered_wq {m : RoomManager} {uid : String} {u : User}
    (hu : dictGet uid m.users = some u) :
    (removeUser m uid).1.waiting_queue =
      (removeFromWaitingQueue m uid).waiting_queue := by
  rw [removeUser_registered hu]
  show (roomCleanup (removeFromWaitingQueue m uid) uid
      (dictGet uid m.user_to_room)).waiting_queue = _
  exact roomCleanup_waiting_queue _ _ _

/-- C4: `removeUser` on a member of a 2-member active room leaves the room
stored, still `active`, with exactly the other member; removing the sole
remaining member closes the room and deletes it, so `getRoom` then returns
null; the user record is removed, the user's waiting-pool entry (if any)
is removed, and the call returns the room id the user had been in, or null
for an unknown user. -/
theorem removeUser_spec :
    (∀ (m : RoomManager) (uid : String), dictGet uid m.users = none →
      removeUser m uid = (m, none)) ∧
    (∀ (m : RoomManager) (uid : String) (u : User), dictGet uid m.users = some u →
      (removeUser m uid).2 = dictGet uid m.user_to_room ∧
      dictGet uid (removeUser m uid).1.users = none ∧
      (keysNodup m.waiting_queue →
        (∀ p ∈ m.waiting_queue, uid ∈ p.2 → p.1 = u.preferred_language) →
        uid ∉ waitingIds (removeUser m uid).1)) ∧
    (∀ (m : RoomManager) (uid : String) (u : User) (rid : String)
        (room : TranslationRoom),
      dictGet uid m.users = some u →
      dictGet uid m.user_to_room = some rid →
      dictGet rid m.rooms = some room →
      room.users.length = 2 → keysNodup room.users →
      uid ∈ room.users.map Prod.fst → room.status = RoomStatus.active →
      (removeUser m uid).2 = some rid ∧
      getRoom (removeUser m uid).1 rid = some (roomAfterUserRemoval room uid) ∧
      (roomAfterUserRemoval room uid).status = RoomStatus.active ∧
      (roomAfterUserRemoval room uid).users.length = 1 ∧
      dictGet uid (roomAfterUserRemoval room uid).users = none) ∧
    (∀ (m : RoomManager) (uid : String) (u : User) (rid : String)
        (room : TranslationRoom) (p : String × User),
      dictGet uid m.users = some u →
      dictGet uid m.user_to_room = some rid →
      dictGet rid m.rooms = some room →
      room.users = [p] → p.1 = uid →
      (removeUser m uid).2 = some rid ∧
      getRoom (removeUser m uid).1 rid = none ∧
      (roomAfterUserRemoval room uid).status = RoomStatus.closed) := by
  refine ⟨?_, ?_, ?_, ?_⟩
  · intro m uid h
    exact removeUser_not_registered h
  · intro m uid u hu
    refine ⟨removeUser_registered_snd hu, ?_, ?_⟩
    · rw [removeUser_registered_users hu]
      exact dictGet_dictDel_self _ _
    · intro hnd hconsist hin
      rw [mem_waitingIds] at hin
      obtain ⟨l, b, hmem, hb⟩ := hin
      rw [removeUser_registered_wq hu] at hmem
      unfold removeFromWaitingQueue at hmem
      rw [hu] at hmem
      simp only [removeFromWaitingQueueFound] at hmem
      cases hbkt : dictGet u.preferred_language m.waiting_queue with
      | none =>
        rw [hbkt] at hmem
        simp only [discardFromBucket] at hmem
        have hl : l = u.preferred_language := hconsist (l, b) hmem hb
        subst hl
        exact dictGet_eq_none_not_mem hbkt hmem
      | some bkt =>
        rw [hbkt] at hmem
        simp only [discardFromBucket] at hmem
        rcases mem_dictSet hmem with heq | hold
        · have : uid ∈ listRemove uid bkt := by
            have hb2 : b = listRemove uid bkt := congrArg Prod.snd heq
            exact hb2 ▸ hb
          exact (mem_listRemove this).2 rfl
        · have hl : l = u.preferred_language := hconsist (l, b) hold hb
          have heq2 : ((l, b) : UserLanguage × List String)
              = (u.preferred_language, listRemove uid bkt) :=
            mem_dictSet_eq_of_key hmem hl hnd
          have : uid ∈ listRemove uid bkt := by
            have hb2 : b = listRemove uid bkt := congrArg Prod.snd heq2
            exact hb2 ▸ hb
          exact (mem_listRemove this).2 rfl
  · intro m uid u rid room hu hr hroom h2 hnd hmem hstat
    have hlen : (dictDel uid room.users).length = 1 := dictDel_length_one h2 hnd hmem
    have hnonempty : (roomAfterUserRemoval room uid).users.isEmpty = false := by
      rw [roomAfterUserRemoval_users]
      exact isEmpty_false_of_length_one hlen
    refine ⟨by rw [removeUser_registered_snd hu, hr], ?_, ?_, ?_, ?_⟩
    · show dictGet rid (removeUser m uid).1.rooms = _
      rw [removeUser_registered_rooms hu, hr]
      simp only [roomCleanup]
      rw [removeFromWaitingQueue_rooms, hroom]
      simp only [roomCleanupFound]
      rw [if_neg (by simp [hnonempty])]
      rw [removeFromWaitingQueue_rooms]
      exact dictGet_dictSet_self _ _ _
    · rw [roomAfterUserRemoval_status_of_nonempty hnonempty]
      exact hstat
    · rw [roomAfterUserRemoval_users]
      exact hlen
    · rw [roomAfterUserRemoval_users]
      exact dictGet_dictDel_self _ _
  · intro m uid u rid room p hu hr hroom hsingle hp
    have hdel : dictDel uid room.users = [] := by
      rw [hsingle]
      simp [dictDel, hp]
    have hempty : (roomAfterUserRemoval room uid).users.isEmpty = true := by
      rw [roomAfterUserRemoval_users, hdel]
      rfl
    refine ⟨by rw [removeUser_registered_snd hu, hr], ?_, ?_⟩
    · show dictGet rid (removeUser m uid).1.rooms = _
      rw [removeUser_registered_rooms hu, hr]
      simp only [roomCleanup]
      rw [removeFromWaitingQueue_rooms, hroom]
      simp only [roomCleanupFound]
      rw [if_pos hempty]
      rw [removeFromWaitingQueue_rooms]
      exact dictGet_dictDel_self _ _
    · unfold roomAfterUserRemoval
      rw [if_pos (by rw [hdel]; rfl)]

/-- Witness for C4 on the concrete trace A(en), B(hi): unknown-user no-op,
removal of A (record and pool entry gone, room id returned), removal of B
from the 2-member room (room stays active with 1 member), then removal of
the last member (room closed and deleted). -/
theorem removeUser_spec_witness :
    removeUser demoManager "Z" = (demoManager, none) ∧
    ((removeUser demoManager "A").2 = dictGet "A" demoManager.user_to_room ∧
     dictGet "A" (removeUser demoManager "A").1.users = none ∧
     "A" ∉ waitingIds (removeUser demoManager "A").1) ∧
    ((removeUser demoManager "B").2 = some "room_1" ∧
     getRoom (removeUser demoManager "B").1 "room_1"
       = some (roomAfterUserRemoval demoRoom "B") ∧
     (roomAfterUserRemoval demoRoom "B").status = RoomStatus.active ∧
     (roomAfterUserRemoval demoRoom "B").users.length = 1) ∧
    ((removeUser (removeUser demoManager "B").1 "A").2 = some "room_1" ∧
     getRoom (removeUser (removeUser demoManager "B").1 "A").1 "room_1" = none ∧
     (roomAfterUserRemoval demoRoomA "A").status = RoomStatus.closed) := by
  refine ⟨?_, ?_, ?_, ?_⟩
  · exact removeUser_spec.1 demoManager "Z" (by decide)
  · have h := removeUser_spec.2.1 demoManager "A" demoUserA (by decide)
    exact ⟨h.1, h.2.1, h.2.2 (by unfold keysNodup; decide) (by decide)⟩
  · have h := removeUser_spec.2.2.1 demoManager "B" demoUserB "room_1" demoRoom
      (by decide) (by decide) (by decide) (by decide)
      (by unfold keysNodup; decide) (by decide) (by decide)
    exact ⟨h.1, h.2.1, h.2.2.1, h.2.2.2.1⟩
  · exact removeUser_spec.2.2.2 (removeUser demoManager "B").1 "A" demoUserA
      "room_1" demoRoomA ("A", demoUserA)
      (by decide) (by decide) (by decide) (by decide) (by decide)

/-! ## Claim C2 — waiting-pool lemmas -/

theorem keys_mem_dictSet {K V : Type} [DecidableEq K] {k x : K} {v : V}
    {l : List (K × V)} (h : x ∈ (dictSet k v l).map Prod.fst) :
    x = k ∨ x ∈ l.map Prod.fst := by
  obtain ⟨p, hp, rfl⟩ := List.mem_map.mp h
  rcases mem_dictSet hp with rfl | hold
  · exact Or.inl rfl
  · exact Or.inr (List.mem_map.mpr ⟨p, hold, rfl⟩)

theorem keysNodup_dictSet {K V : Type} [DecidableEq K] (k : K) (v : V)
    {l : List (K × V)} (hnd : keysNodup l) : keysNodup (dictSet k v l) := by
  induction l with
  | nil => simp [dictSet, keysNodup]
  | cons q rest ih =>
    have hq1 : q.1 ∉ rest.map Prod.fst := by
      have := hnd
      simp only [keysNodup, List.map_cons, List.nodup_cons] at this
      exact this.1
    have hrest : keysNodup rest := by
      have := hnd
      simp only [keysNodup, List.map_cons, List.nodup_cons] at this
      exact this.2
    by_cases hqk : q.1 = k
    · show keysNodup (if q.1 = k then (k, v) :: rest else _)
      rw [if_pos hqk]
      simp only [keysNodup, List.map_cons, List.nodup_cons]
      exact ⟨hqk ▸ hq1, hrest⟩
    · show keysNodup (if q.1 = k then _ else q :: dictSet k v rest)
      rw [if_neg hqk]
      simp only [keysNodup, List.map_cons, List.nodup_cons]
      refine ⟨?_, ih hrest⟩
      intro hin
      rcases keys_mem_dictSet hin with h1 | h1
      · exact hqk h1
      · exact hq1 h1

theorem dictGet_of_mem_nodup {K V : Type} [DecidableEq K] {k : K} {v : V}
    {l : List (K × V)} (hmem : (k, v) ∈ l) (hnd : keysNodup l) :
    dictGet k l = some v := by
  induction l with
  | nil => simp at hmem
  | cons q rest ih =>
    have hq1 : q.1 ∉ rest.map Prod.fst := by
      have := hnd
      simp only [keysNodup, List.map_cons, List.nodup_cons] at this
      exact this.1
    have hrest : keysNodup rest := by
      have := hnd
      simp only [keysNodup, List.map_cons, List.nodup_cons] at this
      exact this.2
    rcases List.mem_cons.mp hmem with heq | hold
    · rw [← heq]
      simp [dictGet]
    · by_cases hqk : q.1 = k
      · exfalso
        exact hq1 (hqk ▸ List.mem_map.mpr ⟨(k, v), hold, rfl⟩)
      · simp only [dictGet, if_neg hqk]
        exact ih hold hrest

theorem dictGet_dictSet_isSome {K V : Type} [DecidableEq K] {k k' : K} (v : V)
    {l : List (K × V)} (h : (dictGet k l).isSome) :
    (dictGet k (dictSet k' v l)).isSome := by
  by_cases hk : k = k'
  · rw [hk, dictGet_dictSet_self]
    rfl
  · rw [dictGet_dictSet_ne _ _ hk]
    exact h

theorem removeFromWaitingQueue_wq_of_user {m : RoomManager} {uid : String} {u : User}
    (hu : dictGet uid m.users = some u) :
    ((removeFromWaitingQueue m uid).waiting_queue = m.waiting_queue ∧
      dictGet u.preferred_language m.waiting_queue = none) ∨
    ∃ bkt, dictGet u.preferred_language m.waiting_queue = some bkt ∧
      (removeFromWaitingQueue m uid).waiting_queue
        = dictSet u.preferred_language (listRemove uid bkt) m.waiting_queue := by
  unfold removeFromWaitingQueue
  rw [hu]
  simp only [removeFromWaitingQueueFound]
  cases hb : dictGet u.preferred_language m.waiting_queue with
  | none => exact Or.inl ⟨rfl, rfl⟩
  | some bkt => exact Or.inr ⟨bkt, rfl, rfl⟩

theorem removeFromWaitingQueue_wq_cases (m : RoomManager) (uid : String) :
    (removeFromWaitingQueue m uid).waiting_queue = m.waiting_queue ∨
    ∃ l bkt, dictGet l m.waiting_queue = some bkt ∧
      (removeFromWaitingQueue m uid).waiting_queue
        = dictSet l (listRemove uid bkt) m.waiting_queue := by
  unfold removeFromWaitingQueue
  cases hu : dictGet uid m.users with
  | none => exact Or.inl rfl
  | some u =>
    simp only [removeFromWaitingQueueFound]
    cases hb : dictGet u.preferred_language m.waiting_queue with
    | none => exact Or.inl rfl
    | some bkt => exact Or.inr ⟨u.preferred_language, bkt, hb, rfl⟩

theorem roomTablesUpdated_wq (m1 : RoomManager) (uid cid : String)
    (lang : UserLanguage) (pid : String) (partner0 : User) :
    (roomTablesUpdated m1 uid cid lang pid partner0).waiting_queue
      = m1.waiting_queue := rfl

theorem matchIntoRoom_users (m1 : RoomManager) (uid cid : String)
    (lang : UserLanguage) (pid : String) (partner0 : User) :
    (matchIntoRoom m1 uid cid lang pid partner0).users
      = (roomTablesUpdated m1 uid cid lang pid partner0).users := by
  unfold matchIntoRoom
  simp only [removeFromWaitingQueue_users]

theorem matchIntoRoom_utr (m1 : RoomManager) (uid cid : String)
    (lang : UserLanguage) (pid : String) (partner0 : User) :
    (matchIntoRoom m1 uid cid lang pid partner0).user_to_room
      = (roomTablesUpdated m1 uid cid lang pid partner0).user_to_room := by
  unfold matchIntoRoom
  simp only [removeFromWaitingQueue_utr]

theorem matchIntoRoom_wq (m1 : RoomManager) (uid cid : String)
    (lang : UserLanguage) (pid : String) (partner0 : User) :
    (matchIntoRoom m1 uid cid lang pid partner0).waiting_queue
      = (removeFromWaitingQueue (roomTablesUpdated m1 uid cid lang pid partner0)
          pid).waiting_queue := rfl

theorem addToWaitingQueue_wq (m : RoomManager) (u : User) :
    (addToWaitingQueue m u).waiting_queue
      = dictSet u.preferred_language
          (setAdd u.user_id ((dictGet u.preferred_language m.waiting_queue).getD []))
          m.waiting_queue := rfl

theorem addToWaitingQueue_users (m : RoomManager) (u : User) :
    (addToWaitingQueue m u).users = m.users := rfl

theorem addToWaitingQueue_utr (m : RoomManager) (u : User) :
    (addToWaitingQueue m u).user_to_room = m.user_to_room := rfl

theorem setSpeaking_not_registered {m : RoomManager} {uid : String} {b : Bool}
    (h : dictGet uid m.users = none) :
    setUserSpeakingStatus m uid b = m := by
  unfold setUserSpeakingStatus
  rw [h]

theorem setSpeaking_registered {m : RoomManager} {uid : String} {u : User} {b : Bool}
    (h : dictGet uid m.users = some u) :
    setUserSpeakingStatus m uid b
      = { m with users := dictSet uid { u with is_speaking := b } m.users } := by
  unfold setUserSpeakingStatus
  rw [h]

theorem findWaitingPartner_none_diff {m : RoomManager} {lang : UserLanguage}
    (h : findWaitingPartner m lang = none) :
    ∀ l b, (l, b) ∈ m.waiting_queue → l ≠ lang → b = [] := by
  unfold findWaitingPartner at h
  cases hd : findDifferentLang lang m.waiting_queue with
  | some uid => rw [hd] at h; simp at h
  | none => exact findDifferentLang_eq_none hd

theorem bucketsDisjoint_shrink {wq : List (UserLanguage × List String)}
    (h : bucketsDisjoint wq) {l : UserLanguage} {bkt : List String}
    (hb : dictGet l wq = some bkt) (pid : String) :
    bucketsDisjoint (dictSet l (listRemove pid bkt) wq) := by
  intro l1 b1 l2 b2 u h1 h2 hne hu1 hu2
  rcases mem_dictSet h1 with he1 | ho1 <;> rcases mem_dictSet h2 with he2 | ho2
  · exact hne ((congrArg Prod.fst he1).trans (congrArg Prod.fst he2).symm)
  · have eb1 : b1 = listRemove pid bkt := congrArg Prod.snd he1
    have el1 : l1 = l := congrArg Prod.fst he1
    have humem : u ∈ bkt := (mem_listRemove (eb1 ▸ hu1)).1
    exact h l bkt l2 b2 u (dictGet_mem hb) ho2 (el1 ▸ hne) humem hu2
  · have eb2 : b2 = listRemove pid bkt := congrArg Prod.snd he2
    have el2 : l2 = l := congrArg Prod.fst he2
    have humem : u ∈ bkt := (mem_listRemove (eb2 ▸ hu2)).1
    exact h l1 b1 l bkt u ho1 (dictGet_mem hb) (el2 ▸ hne) hu1 humem
  · exact h l1 b1 l2 b2 u ho1 ho2 hne hu1 hu2

theorem applyEvent_disjoint {m : RoomManager}
    (hd : bucketsDisjoint m.waiting_queue) (e : MEvent) :
    bucketsDisjoint (applyEvent m e).waiting_queue := by
  cases e with
  | add uid cid lang =>
    show bucketsDisjoint (addUser m uid cid lang).1.waiting_queue
    cases hp : findWaitingPartner (withUserInserted m uid cid lang) lang with
    | none =>
      rw [addUser_queued hp]
      show bucketsDisjoint (addToWaitingQueue (withUserInserted m uid cid lang)
        (newUser uid cid lang)).waiting_queue
      rw [addToWaitingQueue_wq, withUserInserted_waiting_queue]
      have hdiff : ∀ l b, (l, b) ∈ m.waiting_queue → l ≠ lang → b = [] := by
        have h0 := findWaitingPartner_none_diff hp
        rwa [withUserInserted_waiting_queue] at h0
      intro l1 b1 l2 b2 u h1 h2 hne hu1 hu2
      rcases mem_dictSet h1 with he1 | ho1
      · have e1 : l1 = (newUser uid cid lang).preferred_language :=
          congrArg Prod.fst he1
        rcases mem_dictSet h2 with he2 | ho2
        · exact hne (e1.trans (congrArg Prod.fst he2).symm)
        · have hb2 : b2 = [] := hdiff l2 b2 ho2 (fun e => hne (e1.trans e.symm))
          rw [hb2] at hu2
          simp at hu2
      · by_cases hl1 : l1 = lang
        · rcases mem_dictSet h2 with he2 | ho2
          · exact hne (hl1.trans (congrArg Prod.fst he2).symm)
          · have hb2 : b2 = [] := hdiff l2 b2 ho2 (fun e => hne (hl1.trans e.symm))
            rw [hb2] at hu2
            simp at hu2
        · have hb1 : b1 = [] := hdiff l1 b1 ho1 hl1
          rw [hb1] at hu1
          simp at hu1
    | some pid =>
      cases hq : dictGet pid (withUserInserted m uid cid lang).users with
      | none =>
        rw [addUser_keyError hp hq]
        show bucketsDisjoint (withUserInserted m uid cid lang).waiting_queue
        rw [withUserInserted_waiting_queue]
        exact hd
      | some partner0 =>
        rw [addUser_matched hp hq]
        show bucketsDisjoint (matchIntoRoom (withUserInserted m uid cid lang)
          uid cid lang pid partner0).waiting_queue
        rw [matchIntoRoom_wq]
        rcases removeFromWaitingQueue_wq_cases
            (roomTablesUpdated (withUserInserted m uid cid lang) uid cid lang pid
              partner0) pid with hcase | ⟨l, bkt, hb, hcase⟩
        · rw [hcase, roomTablesUpdated_wq, withUserInserted_waiting_queue]
          exact hd
        · rw [hcase, roomTablesUpdated_wq, withUserInserted_waiting_queue]
          rw [roomTablesUpdated_wq, withUserInserted_waiting_queue] at hb
          exact bucketsDisjoint_shrink hd hb pid
  | remove uid =>
    show bucketsDisjoint (removeUser m uid).1.waiting_queue
    cases hu : dictGet uid m.users with
    | none =>
      rw [removeUser_not_registered hu]
      exact hd
    | some u =>
      rw [removeUser_registered_wq hu]
      rcases removeFromWaitingQueue_wq_cases m uid with hcase | ⟨l, bkt, hb, hcase⟩
      · rw [hcase]
        exact hd
      · rw [hcase]
        exact bucketsDisjoint_shrink hd hb uid
  | setSpeaking uid b =>
    show bucketsDisjoint (setUserSpeakingStatus m uid b).waiting_queue
    cases hu : dictGet uid m.users with
    | none =>
      rw [setSpeaking_not_registered hu]
      exact hd
    | some u =>
      rw [setSpeaking_registered hu]
      exact hd

theorem foldl_disjoint : ∀ (es : List MEvent) (m : RoomManager),
    bucketsDisjoint m.waiting_queue →
    bucketsDisjoint (es.foldl applyEvent m).waiting_queue := by
  intro es
  induction es with
  | nil => intro m h; simpa using h
  | cons e rest ih =>
    intro m h
    simp only [List.foldl_cons]
    exact ih _ (applyEvent_disjoint h e)

theorem withUserInserted_users (m : RoomManager) (uid cid : String)
    (lang : UserLanguage) :
    (withUserInserted m uid cid lang).users
      = dictSet uid (newUser uid cid lang) m.users := rfl

theorem withUserInserted_utr (m : RoomManager) (uid cid : String)
    (lang : UserLanguage) :
    (withUserInserted m uid cid lang).user_to_room = m.user_to_room := rfl

theorem roomTablesUpdated_users (m1 : RoomManager) (uid cid : String)
    (lang : UserLanguage) (pid : String) (partner0 : User) :
    (roomTablesUpdated m1 uid cid lang pid partner0).users
      = dictSet pid
          { partner0 with room_id := some (generateRoomId (m1.room_counter + 1)) }
          (dictSet uid
            { newUser uid cid lang with
                room_id := some (generateRoomId (m1.room_counter + 1)) }
            m1.users) := rfl

theorem roomTablesUpdated_utr (m1 : RoomManager) (uid cid : String)
    (lang : UserLanguage) (pid : String) (partner0 : User) :
    (roomTablesUpdated m1 uid cid lang pid partner0).user_to_room
      = dictSet pid (generateRoomId (m1.room_counter + 1))
          (dictSet uid (generateRoomId (m1.room_counter + 1)) m1.user_to_room) := rfl

theorem queueInv_init : QueueInv initManager := by
  constructor
  · intro l b u hmem
    simp [initManager] at hmem
  · intro u hmem
    simp [initManager, waitingIds] at hmem
  · intro k hk
    simp [initManager, dictGet] at hk
  · simp [initManager, keysNodup]

theorem addUser_queueInv {m : RoomManager} {uid cid : String} {lang : UserLanguage}
    (hinv : QueueInv m) (hfresh : dictGet uid m.users = none) :
    QueueInv (addUser m uid cid lang).1 := by
  have hne_of_some : ∀ (v : String) (usr : User), dictGet v m.users = some usr →
      v ≠ uid := by
    intro v usr hv he
    rw [he, hfresh] at hv
    cases hv
  cases hp : findWaitingPartner (withUserInserted m uid cid lang) lang with
  | none =>
    rw [addUser_queued hp]
    have hwq : (addToWaitingQueue (withUserInserted m uid cid lang)
        (newUser uid cid lang)).waiting_queue
      = dictSet lang (setAdd uid ((dictGet lang m.waiting_queue).getD []))
          m.waiting_queue := by
      rw [addToWaitingQueue_wq, withUserInserted_waiting_queue]
      rfl
    constructor
    · intro l b u hmem hu
      rw [hwq] at hmem
      show ∃ usr, dictGet u (dictSet uid (newUser uid cid lang) m.users) = some usr
        ∧ usr.preferred_language = l
      rcases mem_dictSet hmem with heq | hold
      · have el : l = lang := congrArg Prod.fst heq
        have eb : b = setAdd uid ((dictGet lang m.waiting_queue).getD [])
          := congrArg Prod.snd heq
        rcases mem_setAdd.mp (eb ▸ hu) with huuid | hub0
        · refine ⟨newUser uid cid lang, ?_, el.symm⟩
          rw [huuid]
          exact dictGet_dictSet_self _ _ _
        · cases hgb : dictGet lang m.waiting_queue with
          | none =>
            rw [hgb] at hub0
            simp at hub0
          | some bb =>
            rw [hgb] at hub0
            simp only [Option.getD_some] at hub0
            obtain ⟨usr, husr, hl⟩ :=
              hinv.langOfBucket lang bb u (dictGet_mem hgb) hub0
            rw [dictGet_dictSet_ne _ _ (hne_of_some u usr husr)]
            exact ⟨usr, husr, hl.trans el.symm⟩
      · obtain ⟨usr, husr, hl⟩ := hinv.langOfBucket l b u hold hu
        rw [dictGet_dictSet_ne _ _ (hne_of_some u usr husr)]
        exact ⟨usr, husr, hl⟩
    · intro u humem
      obtain ⟨l, b, hmem, hu⟩ := mem_waitingIds.mp humem
      rw [hwq] at hmem
      show dictGet u m.user_to_room = none
      rcases mem_dictSet hmem with heq | hold
      · have eb : b = setAdd uid ((dictGet lang m.waiting_queue).getD [])
          := congrArg Prod.snd heq
        rcases mem_setAdd.mp (eb ▸ hu) with huuid | hub0
        · cases hcase : dictGet u m.user_to_room with
          | none => rfl
          | some r =>
            have hs := hinv.assignedRegistered u (by rw [hcase]; rfl)
            rw [huuid, hfresh] at hs
            cases hs
        · cases hgb : dictGet lang m.waiting_queue with
          | none =>
            rw [hgb] at hub0
            simp at hub0
          | some bb =>
            rw [hgb] at hub0
            simp only [Option.getD_some] at hub0
            exact hinv.waitingUnassigned u
              (mem_waitingIds.mpr ⟨lang, bb, dictGet_mem hgb, hub0⟩)
      · exact hinv.waitingUnassigned u (mem_waitingIds.mpr ⟨l, b, hold, hu⟩)
    · intro k hk
      show (dictGet k (dictSet uid (newUser uid cid lang) m.users)).isSome
      exact dictGet_dictSet_isSome _ (hinv.assignedRegistered k hk)
    · show keysNodup (addToWaitingQueue (withUserInserted m uid cid lang)
        (newUser uid cid lang)).waiting_queue
      rw [hwq]
      exact keysNodup_dictSet _ _ hinv.wqKeys
  | some pid =>
    cases hq : dictGet pid (withUserInserted m uid cid lang).users with
    | none =>
      rw [addUser_keyError hp hq]
      constructor
      · intro l b u hmem hu
        obtain ⟨usr, husr, hl⟩ := hinv.langOfBucket l b u hmem hu
        show ∃ usr, dictGet u (dictSet uid (newUser uid cid lang) m.users) = some usr
          ∧ usr.preferred_language = l
        rw [dictGet_dictSet_ne _ _ (hne_of_some u usr husr)]
        exact ⟨usr, husr, hl⟩
      · intro u humem
        exact hinv.waitingUnassigned u humem
      · intro k hk
        show (dictGet k (dictSet uid (newUser uid cid lang) m.users)).isSome
        exact dictGet_dictSet_isSome _ (hinv.assignedRegistered k hk)
      · exact hinv.wqKeys
    | some partner0 =>
      rw [addUser_matched hp hq]
      have hpidw : pid ∈ waitingIds m := findWaitingPartner_mem hp
      obtain ⟨l0, b0, hb0mem, hpidb0⟩ := mem_waitingIds.mp hpidw
      obtain ⟨usr0, husr0, hlang0⟩ := hinv.langOfBucket l0 b0 pid hb0mem hpidb0
      have hpne : pid ≠ uid := hne_of_some pid usr0 husr0
      have hpartner : partner0 = usr0 := by
        rw [withUserInserted_users, dictGet_dictSet_ne _ _ hpne, husr0] at hq
        exact (Option.some.inj hq).symm
      have hplang : partner0.preferred_language = l0 := by
        rw [hpartner]
        exact hlang0
      have hl0get : dictGet l0 m.waiting_queue = some b0 :=
        dictGet_of_mem_nodup hb0mem hinv.wqKeys
      -- partner lookup in the updated tables
      have hu2 : dictGet pid (roomTablesUpdated (withUserInserted m uid cid lang)
          uid cid lang pid partner0).users
        = some { partner0 with
            room_id := some (generateRoomId
              ((withUserInserted m uid cid lang).room_counter + 1)) } := by
        rw [roomTablesUpdated_users]
        exact dictGet_dictSet_self _ _ _
      have hwq : (matchIntoRoom (withUserInserted m uid cid lang) uid cid lang pid
          partner0).waiting_queue
        = dictSet l0 (listRemove pid b0) m.waiting_queue := by
        rw [matchIntoRoom_wq]
        rcases removeFromWaitingQueue_wq_of_user hu2 with ⟨heq, hnone⟩ |
          ⟨bkt, hbkt, heq⟩
        · exfalso
          have : dictGet l0 m.waiting_queue = none := by
            rw [← hnone]
            show dictGet l0 m.waiting_queue = _
            rw [show ({ partner0 with
                room_id := some (generateRoomId
                  ((withUserInserted m uid cid lang).room_counter + 1))
              } : User).preferred_language = l0 from hplang]
            rw [roomTablesUpdated_wq, withUserInserted_waiting_queue]
          rw [hl0get] at this
          cases this
        · rw [heq]
          rw [show ({ partner0 with
              room_id := some (generateRoomId
                ((withUserInserted m uid cid lang).room_counter + 1))
            } : User).preferred_language = l0 from hplang] at hbkt ⊢
          rw [roomTablesUpdated_wq, withUserInserted_waiting_queue] at hbkt ⊢
          rw [hl0get] at hbkt
          rw [Option.some.inj hbkt]
      have husers : (matchIntoRoom (withUserInserted m uid cid lang) uid cid lang
          pid partner0).users
        = dictSet pid
            { partner0 with room_id := some (generateRoomId
                ((withUserInserted m uid cid lang).room_counter + 1)) }
            (dictSet uid
              { newUser uid cid lang with room_id := some (generateRoomId
                  ((withUserInserted m uid cid lang).room_counter + 1)) }
              (dictSet uid (newUser uid cid lang) m.users)) := by
        rw [matchIntoRoom_users, roomTablesUpdated_users, withUserInserted_users]
      have hutr : (matchIntoRoom (withUserInserted m uid cid lang) uid cid lang
          pid partner0).user_to_room
        = dictSet pid (generateRoomId ((withUserInserted m uid cid lang).room_counter + 1))
            (dictSet uid
              (generateRoomId ((withUserInserted m uid cid lang).room_counter + 1))
              m.user_to_room) := by
        rw [matchIntoRoom_utr, roomTablesUpdated_utr, withUserInserted_utr]
      have hcore : ∀ l b u, (l, b) ∈ dictSet l0 (listRemove pid b0) m.waiting_queue →
          u ∈ b → u ≠ pid ∧ u ∈ waitingIds m ∧
            ∃ usr, dictGet u m.users = some usr ∧ usr.preferred_language = l := by
        intro l b u hmem hu
        rcases mem_dictSet hmem with heq | hold
        · have el : l = l0 := congrArg Prod.fst heq
          have eb : b = listRemove pid b0 := congrArg Prod.snd heq
          have h1 := mem_listRemove (eb ▸ hu)
          obtain ⟨usr, husr, hl⟩ := hinv.langOfBucket l0 b0 u hb0mem h1.1
          exact ⟨h1.2, mem_waitingIds.mpr ⟨l0, b0, hb0mem, h1.1⟩,
            usr, husr, hl.trans el.symm⟩
        · by_cases hupid : u = pid
          · exfalso
            obtain ⟨usr, husr, hl⟩ := hinv.langOfBucket l b u hold hu
            have husr2 : usr = usr0 := by
              rw [hupid] at husr
              rw [husr] at husr0
              exact Option.some.inj husr0
            have el : l = l0 := by
              rw [← hl, husr2, hlang0]
            have heqf := mem_dictSet_eq_of_key hmem el hinv.wqKeys
            have eb : b = listRemove pid b0 := congrArg Prod.snd heqf
            rw [eb, hupid] at hu
            exact (mem_listRemove hu).2 rfl
          · obtain ⟨usr, husr, hl⟩ := hinv.langOfBucket l b u hold hu
            exact ⟨hupid, mem_waitingIds.mpr ⟨l, b, hold, hu⟩, usr, husr, hl⟩
      constructor
      · intro l b u hmem hu
        rw [hwq] at hmem
        obtain ⟨hupid, huw, usr, husr, hl⟩ := hcore l b u hmem hu
        have huuid : u ≠ uid := hne_of_some u usr husr
        rw [husers, dictGet_dictSet_ne _ _ hupid, dictGet_dictSet_ne _ _ huuid,
          dictGet_dictSet_ne _ _ huuid]
        exact ⟨usr, husr, hl⟩
      · intro u humem
        obtain ⟨l, b, hmem, hu⟩ := mem_waitingIds.mp humem
        rw [hwq] at hmem
        obtain ⟨hupid, huw, usr, husr, hl⟩ := hcore l b u hmem hu
        have huuid : u ≠ uid := hne_of_some u usr husr
        rw [hutr, dictGet_dictSet_ne _ _ hupid, dictGet_dictSet_ne _ _ huuid]
        exact hinv.waitingUnassigned u huw
      · intro k hk
        rw [husers]
        by_cases hkp : k = pid
        · rw [hkp, dictGet_dictSet_self]
          rfl
        · by_cases hku : k = uid
          · rw [dictGet_dictSet_ne _ _ hkp, hku, dictGet_dictSet_self]
            rfl
          · rw [hutr, dictGet_dictSet_ne _ _ hkp, dictGet_dictSet_ne _ _ hku] at hk
            rw [dictGet_dictSet_ne _ _ hkp, dictGet_dictSet_ne _ _ hku,
              dictGet_dictSet_ne _ _ hku]
            exact hinv.assignedRegistered k hk
      · show keysNodup (matchIntoRoom (withUserInserted m uid cid lang) uid cid lang
          pid partner0).waiting_queue
        rw [hwq]
        exact keysNodup_dictSet _ _ hinv.wqKeys

theorem removeUser_registered_utr {m : RoomManager} {uid : String} {u : User}
    (hu : dictGet uid m.users = some u) :
    (removeUser m uid).1.user_to_room = dictDel uid m.user_to_room := by
  rw [removeUser_registered hu]
  show dictDel uid (roomCleanup (removeFromWaitingQueue m uid) uid
      (dictGet uid m.user_to_room)).user_to_room = _
  rw [roomCleanup_utr, removeFromWaitingQueue_utr]

theorem removeUser_registered_users2 {m : RoomManager} {uid : String} {u : User}
    (hu : dictGet uid m.users = some u) :
    (removeUser m uid).1.users = dictDel uid m.users := by
  rw [removeUser_registered_users hu, roomCleanup_users, removeFromWaitingQueue_users]

theorem removeUser_queueInv {m : RoomManager} {uid : String}
    (hinv : QueueInv m) : QueueInv (removeUser m uid).1 := by
  cases hu : dictGet uid m.users with
  | none =>
    rw [removeUser_not_registered hu]
    exact hinv
  | some u =>
    have husers := removeUser_registered_users2 hu
    have hutr := removeUser_registered_utr hu
    have hwq0 := removeUser_registered_wq hu
    -- characterise the waiting pool after removal, and show `uid` is in no
    -- remaining bucket
    have hcore : ∀ l b v, (l, b) ∈ (removeUser m uid).1.waiting_queue → v ∈ b →
        v ≠ uid ∧ v ∈ waitingIds m ∧
          ∃ usr, dictGet v m.users = some usr ∧ usr.preferred_language = l := by
      rw [hwq0]
      rcases removeFromWaitingQueue_wq_of_user hu with ⟨heq, hnone⟩ |
        ⟨bkt, hbkt, heq⟩
      · rw [heq]
        intro l b v hmem hv
        obtain ⟨usr, husr, hl⟩ := hinv.langOfBucket l b v hmem hv
        refine ⟨?_, mem_waitingIds.mpr ⟨l, b, hmem, hv⟩, usr, husr, hl⟩
        intro hveq
        have husr2 : usr = u := by
          rw [hveq] at husr
          rw [husr] at hu
          exact Option.some.inj hu
        have el : l = u.preferred_language := by rw [← hl, husr2]
        rw [el] at hmem
        exact dictGet_eq_none_not_mem hnone hmem
      · rw [heq]
        intro l b v hmem hv
        rcases mem_dictSet hmem with heqb | hold
        · have el : l = u.preferred_language := congrArg Prod.fst heqb
          have eb : b = listRemove uid bkt := congrArg Prod.snd heqb
          have h1 := mem_listRemove (eb ▸ hv)
          obtain ⟨usr, husr, hl⟩ :=
            hinv.langOfBucket u.preferred_language bkt v (dictGet_mem hbkt) h1.1
          exact ⟨h1.2,
            mem_waitingIds.mpr ⟨u.preferred_language, bkt, dictGet_mem hbkt, h1.1⟩,
            usr, husr, hl.trans el.symm⟩
        · by_cases hveq : v = uid
          · exfalso
            obtain ⟨usr, husr, hl⟩ := hinv.langOfBucket l b v hold hv
            have husr2 : usr = u := by
              rw [hveq] at husr
              rw [husr] at hu
              exact Option.some.inj hu
            have el : l = u.preferred_language := by rw [← hl, husr2]
            have heqf := mem_dictSet_eq_of_key hmem el hinv.wqKeys
            have eb : b = listRemove uid bkt := congrArg Prod.snd heqf
            rw [eb, hveq] at hv
            exact (mem_listRemove hv).2 rfl
          · obtain ⟨usr, husr, hl⟩ := hinv.langOfBucket l b v hold hv
            exact ⟨hveq, mem_waitingIds.mpr ⟨l, b, hold, hv⟩, usr, husr, hl⟩
    constructor
    · intro l b v hmem hv
      obtain ⟨hvne, hvw, usr, husr, hl⟩ := hcore l b v hmem hv
      rw [husers, dictGet_dictDel_ne _ hvne]
      exact ⟨usr, husr, hl⟩
    · intro v hvmem
      obtain ⟨l, b, hmem, hv⟩ := mem_waitingIds.mp hvmem
      obtain ⟨hvne, hvw, usr, husr, hl⟩ := hcore l b v hmem hv
      rw [hutr, dictGet_dictDel_ne _ hvne]
      exact hinv.waitingUnassigned v hvw
    · intro k hk
      rw [hutr] at hk
      by_cases hkeq : k = uid
      · rw [hkeq, dictGet_dictDel_self] at hk
        cases hk
      · rw [dictGet_dictDel_ne _ hkeq] at hk
        rw [husers, dictGet_dictDel_ne _ hkeq]
        exact hinv.assignedRegistered k hk
    · show keysNodup (removeUser m uid).1.waiting_queue
      rw [hwq0]
      rcases removeFromWaitingQueue_wq_of_user hu with ⟨heq, -⟩ | ⟨bkt, -, heq⟩
      · rw [heq]
        exact hinv.wqKeys
      · rw [heq]
        exact keysNodup_dictSet _ _ hinv.wqKeys

theorem setSpeaking_queueInv {m : RoomManager} {uid : String} {b : Bool}
    (hinv : QueueInv m) : QueueInv (setUserSpeakingStatus m uid b) := by
  cases hu : dictGet uid m.users with
  | none =>
    rw [setSpeaking_not_registered hu]
    exact hinv
  | some u =>
    rw [setSpeaking_registered hu]
    constructor
    · intro l bkt v hmem hv
      obtain ⟨usr, husr, hl⟩ := hinv.langOfBucket l bkt v hmem hv
      show ∃ w, dictGet v (dictSet uid { u with is_speaking := b } m.users) = some w
        ∧ w.preferred_language = l
      by_cases hveq : v = uid
      · refine ⟨{ u with is_speaking := b }, ?_, ?_⟩
        · rw [hveq, dictGet_dictSet_self]
        · show u.preferred_language = l
          have husr2 : usr = u := by
            rw [hveq] at husr
            rw [husr] at hu
            exact Option.some.inj hu
          rw [← hl, husr2]
      · rw [dictGet_dictSet_ne _ _ hveq]
        exact ⟨usr, husr, hl⟩
    · intro v hvmem
      exact hinv.waitingUnassigned v hvmem
    · intro k hk
      show (dictGet k (dictSet uid { u with is_speaking := b } m.users)).isSome
      exact dictGet_dictSet_isSome _ (hinv.assignedRegistered k hk)
    · exact hinv.wqKeys

theorem foldl_queueInv : ∀ (es : List MEvent) (m : RoomManager),
    noRegisteredReuse m es = true → QueueInv m →
    QueueInv (es.foldl applyEvent m) := by
  intro es
  induction es with
  | nil => intro m _ h; simpa using h
  | cons e rest ih =>
    intro m hok hinv
    simp only [List.foldl_cons]
    cases e with
    | add uid cid lang =>
      obtain ⟨h1, h2⟩ := Bool.and_eq_true_iff.mp
        (by simpa only [noRegisteredReuse] using hok)
      have hfresh : dictGet uid m.users = none := by
        simpa using h1
      exact ih _ h2 (addUser_queueInv hinv hfresh)
    | remove uid =>
      exact ih _ (by simpa only [noRegisteredReuse] using hok)
        (removeUser_queueInv hinv)
    | setSpeaking uid bb =>
      exact ih _ (by simpa only [noRegisteredReuse] using hok)
        (setSpeaking_queueInv hinv)

/-- C2 (amended): in every state reachable from a fresh manager by
`addUser` / `removeUser` (and `setSpeakingStatus`) calls, a user id never
sits in waiting-pool buckets of two different languages; and provided no
`addUser` call reuses an id that currently has a user record, every id in
the waiting pool has no room assignment.  (Unrestricted, the second part
fails: see the counterexample, where a reused id ends up both waiting and
assigned to a room.) -/
theorem waiting_pool_invariant :
    (∀ es : List MEvent, bucketsDisjoint (runEvents es).waiting_queue) ∧
    (∀ es : List MEvent, noRegisteredReuse initManager es = true →
      ∀ uid ∈ waitingIds (runEvents es),
        dictGet uid (runEvents es).user_to_room = none) := by
  constructor
  · intro es
    exact foldl_disjoint es initManager (by intro l1 b1 l2 b2 u h1; simp [initManager] at h1)
  · intro es hok uid hmem
    exact (foldl_queueInv es initManager hok queueInv_init).waitingUnassigned uid hmem

/-- C2 counterexample: after `addUser("A", en)` then `addUser("A", hi)`
the reused id "A" self-matches but the waiting-pool discard uses the new
language, so "A" is still in the `en` bucket while holding a room
assignment. -/
theorem waiting_reuse_counterexample :
    ¬ (∀ uid ∈ waitingIds (runEvents [MEvent.add "A" "c1" UserLanguage.en,
          MEvent.add "A" "c2" UserLanguage.hi]),
        dictGet uid (runEvents [MEvent.add "A" "c1" UserLanguage.en,
          MEvent.add "A" "c2" UserLanguage.hi]).user_to_room = none) := by
  decide

/-- Witness for C2 (amended): a fresh-id trace where "A" waits and indeed
has no room assignment. -/
theorem waiting_pool_invariant_witness :
    noRegisteredReuse initManager [MEvent.add "A" "c1" UserLanguage.en] = true ∧
    dictGet "A" (runEvents [MEvent.add "A" "c1" UserLanguage.en]).user_to_room
      = none :=
  ⟨by decide,
   waiting_pool_invariant.2 [MEvent.add "A" "c1" UserLanguage.en] (by decide)
     "A" (by decide)⟩

end Kaplingo
